import Mathlib

/-!
Verification of the stockmetrics data pipeline (src/config.py,
src/data_collection.py, src/data_processing.py).

The repository manipulates pandas DataFrames.  We embed a DataFrame as a
`Table`: a list of column names (`header`) together with a list of rows,
each row a list of `Cell` values aligned with the header.  Real DataFrames
are rectangular; the predicate `Table.WF` captures that invariant and is
assumed where a proof needs it.

Scalar values are embedded as `Cell`:
  * `Cell.str s`  - a text value;
  * `Cell.num s`  - a numeric value, carried as its decimal literal.  No
    claim depends on numeric arithmetic, only on classification, equality
    and the textual round trip, so floating point values are represented
    by their (unchanged) source text;
  * `Cell.date s` - a datetime value, carried as its ISO `YYYY-MM-DD`
    text; lexicographic order on this text coincides with chronological
    order, which is exactly the property the code relies on;
  * `Cell.na`     - a missing value (covers pandas NaN/NaT/NA; the claims
    under study never distinguish the three flavours).
-/

inductive Cell : Type where
  | str : String → Cell
  | num : String → Cell
  | date : String → Cell
  | na : Cell
deriving DecidableEq, Repr

/-- Index of the first occurrence of `name` in a header (pandas resolves a
column label to its first occurrence); returns the length when absent. -/
def colIdx : List String → String → Nat
  | [], _ => 0
  | c :: cs, name => if c = name then 0 else colIdx cs name + 1

/-- Value of column `name` in row `r` under header `h` (missing entries read
as `Cell.na`). -/
def getCell (h : List String) (r : List Cell) (name : String) : Cell :=
  r.getD (colIdx h name) Cell.na

structure Table where
  header : List String
  rows : List (List Cell)
deriving DecidableEq, Repr

/-- Rectangularity: every row has exactly one entry per column.  Every real
pandas DataFrame satisfies this by construction. -/
def Table.WF (t : Table) : Prop := ∀ r ∈ t.rows, r.length = t.header.length

instance (t : Table) : Decidable t.WF := by
  unfold Table.WF; exact List.decidableBAll _ _

instance {ε α : Type} [DecidableEq ε] [DecidableEq α] : DecidableEq (Except ε α) :=
  fun a b =>
    match a, b with
    | Except.ok x, Except.ok y => decidable_of_iff (x = y) (by simp)
    | Except.error x, Except.error y => decidable_of_iff (x = y) (by simp)
    | Except.ok _, Except.error _ => isFalse (fun h => Except.noConfusion h)
    | Except.error _, Except.ok _ => isFalse (fun h => Except.noConfusion h)

/-! ### Models of the pandas primitives used by the source -/

/-- Model of Python `str(c).strip()` on a char list: drop leading and
trailing whitespace. -/
def stripChars (cs : List Char) : List Char :=
  ((cs.dropWhile Char.isWhitespace).reverse.dropWhile Char.isWhitespace).reverse

/-- Model of `str(c).strip().replace(" ", "_")` from `clean_prices`
(data_processing.py line 59). -/
def normalizeName (s : String) : String :=
  String.mk ((stripChars s.toList).map (fun c => if c = ' ' then '_' else c))

/-- Recogniser for the ISO `YYYY-MM-DD` date layout.  `pd.to_datetime` accepts
more layouts; the embedding's parser accepts exactly the canonical one, which
is also the layout pandas itself prints, so parsing is normalisation-free. -/
def isIsoDate (s : String) : Bool :=
  match s.toList with
  | [y1, y2, y3, y4, c1, m1, m2, c2, d1, d2] =>
    y1.isDigit && y2.isDigit && y3.isDigit && y4.isDigit && c1 == '-' &&
      m1.isDigit && m2.isDigit && c2 == '-' && d1.isDigit && d2.isDigit
  | _ => false

/-- Digits with at most one decimal point, and at least one digit. -/
def isNumericCore (cs : List Char) : Bool :=
  cs.any Char.isDigit && cs.all (fun c => c.isDigit || c == '.') &&
    (cs.filter (fun c => c == '.')).length ≤ 1

/-- Recogniser for decimal literals (optional sign, digits, at most one
decimal point).  A subset of what `pd.to_numeric` accepts; since numeric
cells carry their literal unchanged, only the recogniser matters. -/
def isNumericStr (s : String) : Bool :=
  match s.toList with
  | [] => false
  | c :: cs => if c = '-' ∨ c = '+' then isNumericCore cs else isNumericCore (c :: cs)

/-- Model of `pd.to_datetime(x, errors="coerce")` on one value: datetimes pass
through, text parses or coerces to NaT.  (pandas maps numbers to epoch-offset
datetimes; in the pipeline under study the `Date` column is never numeric when
this is applied, so the embedding coerces that unreachable case to NaT.) -/
def to_datetime (c : Cell) : Cell :=
  match c with
  | Cell.date s => Cell.date s
  | Cell.str s => if isIsoDate s then Cell.date s else Cell.na
  | _ => Cell.na

/-- Model of `pd.to_numeric(x, errors="coerce")` on one value: numbers pass
through, text parses or coerces to NaN.  (pandas maps datetimes to epoch
nanoseconds; in the pipeline under study the coerced columns never hold
datetimes, so the embedding coerces that unreachable case to NaN.) -/
def to_numeric (c : Cell) : Cell :=
  match c with
  | Cell.num s => Cell.num s
  | Cell.str s => if isNumericStr s then Cell.num s else Cell.na
  | _ => Cell.na

/-- Model of `df[name] = f(df[name])` for a column already present: rewrite
the cell of column `name` in every row. -/
def mapCol (t : Table) (name : String) (f : Cell → Cell) : Table :=
  Table.mk t.header
    (t.rows.map (fun r => r.set (colIdx t.header name) (f (getCell t.header r name))))

/-- Model of `df[name] = v` for a column not yet present: append the column,
its cell in each row computed from that row. -/
def appendCol (t : Table) (name : String) (f : List Cell → Cell) : Table :=
  Table.mk (t.header ++ [name]) (t.rows.map (fun r => r ++ [f r]))

/-- Model of `df.dropna(subset=["Date"])`. -/
def dropna_date (t : Table) : Table :=
  Table.mk t.header (t.rows.filter (fun r => decide (getCell t.header r "Date" ≠ Cell.na)))

/-- Dedup key of a row: its `(Ticker, Date)` pair. -/
def rowKey (h : List String) (r : List Cell) : Cell × Cell :=
  (getCell h r "Ticker", getCell h r "Date")

/-- Model of `df.drop_duplicates(subset=["Ticker", "Date"])` (keep="first"):
keep a row iff its key was not seen earlier. -/
def dropDupsFrom (h : List String) (seen : List (Cell × Cell)) :
    List (List Cell) → List (List Cell)
  | [] => []
  | r :: rs =>
    if rowKey h r ∈ seen then dropDupsFrom h seen rs
    else r :: dropDupsFrom h (rowKey h r :: seen) rs

def drop_duplicates (t : Table) : Table :=
  Table.mk t.header (dropDupsFrom t.header [] t.rows)

/-- Constructor rank of a cell, used as the major sort component; missing
values rank last, mirroring the default `na_position="last"`. -/
def cellRank : Cell → Nat
  | Cell.str _ => 0
  | Cell.num _ => 1
  | Cell.date _ => 2
  | Cell.na => 3

/-- Carried text of a cell, used as the minor sort component. -/
def cellText : Cell → String
  | Cell.str s => s
  | Cell.num s => s
  | Cell.date s => s
  | Cell.na => ""

/-- Code points of a string; Python compares strings exactly by this
sequence, so all orderings of the model go through it. -/
def strKey (s : String) : List Nat := s.toList.map Char.toNat

/-- Executable lexicographic strict order on code-point sequences. -/
def natListLtB : List Nat → List Nat → Bool
  | _, [] => false
  | [], _ :: _ => true
  | a :: as, b :: bs =>
    if a < b then true else if b < a then false else natListLtB as bs

theorem natListLtB_irrefl : ∀ l, natListLtB l l = false
  | [] => rfl
  | a :: as => by
    unfold natListLtB
    rw [if_neg (Nat.lt_irrefl a), if_neg (Nat.lt_irrefl a)]
    exact natListLtB_irrefl as

theorem natListLtB_trichotomy : ∀ x y,
    natListLtB x y = true ∨ x = y ∨ natListLtB y x = true
  | [], [] => Or.inr (Or.inl rfl)
  | [], _ :: _ => Or.inl rfl
  | _ :: _, [] => Or.inr (Or.inr rfl)
  | a :: as, b :: bs => by
    rcases Nat.lt_trichotomy a b with h | h | h
    · left
      unfold natListLtB
      rw [if_pos h]
    · subst h
      rcases natListLtB_trichotomy as bs with h2 | h2 | h2
      · left
        unfold natListLtB
        rw [if_neg (Nat.lt_irrefl a), if_neg (Nat.lt_irrefl a)]
        exact h2
      · exact Or.inr (Or.inl (by rw [h2]))
      · right
        right
        unfold natListLtB
        rw [if_neg (Nat.lt_irrefl a), if_neg (Nat.lt_irrefl a)]
        exact h2
    · right
      right
      unfold natListLtB
      rw [if_pos h]

theorem natListLtB_asymm : ∀ x y, natListLtB x y = true → natListLtB y x = false
  | [], [], h => by simp [natListLtB] at h
  | [], _ :: _, _ => rfl
  | _ :: _, [], h => by simp [natListLtB] at h
  | a :: as, b :: bs, h => by
    unfold natListLtB at h ⊢
    by_cases hab : a < b
    · rw [if_neg (Nat.lt_asymm hab), if_pos hab]
    · rw [if_neg hab] at h
      by_cases hba : b < a
      · rw [if_pos hba] at h
        cases h
      · have he : a = b := by omega
        subst he
        rw [if_neg hab] at h
        rw [if_neg hab, if_neg hab]
        exact natListLtB_asymm as bs h

theorem natListLtB_trans : ∀ x y z, natListLtB x y = true → natListLtB y z = true →
    natListLtB x z = true
  | _, _, [], _, h2 => by simp [natListLtB] at h2
  | _, [], _ :: _, h1, _ => by simp [natListLtB] at h1
  | [], _ :: _, _ :: _, _, _ => rfl
  | a :: as, b :: bs, c :: cs, h1, h2 => by
    unfold natListLtB at h1 h2 ⊢
    by_cases hab : a < b
    · by_cases hbc : b < c
      · rw [if_pos (Nat.lt_trans hab hbc)]
      · rw [if_neg hbc] at h2
        by_cases hcb : c < b
        · rw [if_pos hcb] at h2
          cases h2
        · have : b = c := by omega
          subst this
          rw [if_pos hab]
    · rw [if_neg hab] at h1
      by_cases hba : b < a
      · rw [if_pos hba] at h1
        cases h1
      · have : a = b := by omega
        subst this
        by_cases hbc : a < c
        · rw [if_pos hbc]
        · rw [if_neg hbc] at h2 ⊢
          by_cases hcb : c < a
          · rw [if_pos hcb] at h2
            cases h2
          · rw [if_neg hcb] at h2 ⊢
            exact natListLtB_trans as bs cs (by rwa [if_neg hba] at h1) h2

theorem char_toNat_inj {a b : Char} (h : a.toNat = b.toNat) : a = b :=
  Char.ext (UInt32.ext h)

theorem strKey_inj {s t : String} (h : strKey s = strKey t) : s = t := by
  unfold strKey at h
  have hl : s.toList = t.toList := by
    have hinj : Function.Injective Char.toNat := fun _ _ hc => char_toNat_inj hc
    exact List.map_injective_iff.mpr hinj h
  exact String.toList_inj.mp hl

/-- Executable strict comparison of two cells: by rank, then by text. -/
def cellLtB (a b : Cell) : Bool :=
  decide (cellRank a < cellRank b) ||
    (decide (cellRank a = cellRank b) &&
      natListLtB (strKey (cellText a)) (strKey (cellText b)))

theorem cell_eq_of_key {a b : Cell} (hr : cellRank a = cellRank b)
    (ht : cellText a = cellText b) : a = b := by
  rcases a with s | s | s | _ <;> rcases b with u | u | u | _ <;>
    simp [cellRank] at hr <;> simp [cellText] at ht <;> simp [ht]

theorem cellLtB_trichotomy (a b : Cell) :
    cellLtB a b = true ∨ a = b ∨ cellLtB b a = true := by
  unfold cellLtB
  rcases Nat.lt_trichotomy (cellRank a) (cellRank b) with h | h | h
  · left
    simp [h]
  · rcases natListLtB_trichotomy (strKey (cellText a)) (strKey (cellText b)) with
      h2 | h2 | h2
    · left
      simp [h, h2]
    · exact Or.inr (Or.inl (cell_eq_of_key h (strKey_inj h2)))
    · right
      right
      simp [h.symm, h2]
  · right
    right
    simp [h]

theorem cellLtB_irrefl (a : Cell) : cellLtB a a = false := by
  unfold cellLtB
  simp [natListLtB_irrefl]

theorem cellLtB_asymm {a b : Cell} (h : cellLtB a b = true) : cellLtB b a = false := by
  unfold cellLtB at h ⊢
  simp only [Bool.or_eq_true, Bool.and_eq_true, decide_eq_true_eq] at h
  rcases h with h | ⟨hr, hl⟩
  · have h1 : ¬ cellRank b < cellRank a := Nat.lt_asymm h
    have h2 : ¬ cellRank b = cellRank a := by omega
    simp [h1, h2]
  · simp [hr, Nat.lt_irrefl, natListLtB_asymm _ _ hl]

theorem cellLtB_trans {a b c : Cell} (h1 : cellLtB a b = true)
    (h2 : cellLtB b c = true) : cellLtB a c = true := by
  unfold cellLtB at h1 h2 ⊢
  simp only [Bool.or_eq_true, Bool.and_eq_true, decide_eq_true_eq] at h1 h2 ⊢
  rcases h1 with h1 | ⟨hr1, hl1⟩ <;> rcases h2 with h2 | ⟨hr2, hl2⟩
  · exact Or.inl (Nat.lt_trans h1 h2)
  · exact Or.inl (hr2 ▸ h1)
  · exact Or.inl (hr1 ▸ h2)
  · exact Or.inr ⟨hr1.trans hr2, natListLtB_trans _ _ _ hl1 hl2⟩

/-- Executable lexicographic comparison of `(Ticker, Date)` keys: strictly
smaller ticker, or equal ticker and no larger date. -/
def keyLeB (p q : Cell × Cell) : Bool :=
  cellLtB p.1 q.1 || (decide (p.1 = q.1) && (cellLtB p.2 q.2 || decide (p.2 = q.2)))

theorem keyLeB_total (p q : Cell × Cell) : keyLeB p q = true ∨ keyLeB q p = true := by
  unfold keyLeB
  simp only [Bool.or_eq_true, Bool.and_eq_true, decide_eq_true_eq]
  rcases cellLtB_trichotomy p.1 q.1 with h | h | h
  · exact Or.inl (Or.inl h)
  · rcases cellLtB_trichotomy p.2 q.2 with h2 | h2 | h2
    · exact Or.inl (Or.inr ⟨h, Or.inl h2⟩)
    · exact Or.inl (Or.inr ⟨h, Or.inr h2⟩)
    · exact Or.inr (Or.inr ⟨h.symm, Or.inl h2⟩)
  · exact Or.inr (Or.inl h)

theorem keyLeB_trans {p q w : Cell × Cell} (h1 : keyLeB p q = true)
    (h2 : keyLeB q w = true) : keyLeB p w = true := by
  unfold keyLeB at h1 h2 ⊢
  simp only [Bool.or_eq_true, Bool.and_eq_true, decide_eq_true_eq] at h1 h2 ⊢
  rcases h1 with h1 | ⟨he1, hd1⟩ <;> rcases h2 with h2 | ⟨he2, hd2⟩
  · exact Or.inl (cellLtB_trans h1 h2)
  · exact Or.inl (he2 ▸ h1)
  · exact Or.inl (he1 ▸ h2)
  · refine Or.inr ⟨he1.trans he2, ?_⟩
    rcases hd1 with hd1 | hd1 <;> rcases hd2 with hd2 | hd2
    · exact Or.inl (cellLtB_trans hd1 hd2)
    · exact Or.inl (hd2 ▸ hd1)
    · exact Or.inl (hd1 ▸ hd2)
    · exact Or.inr (hd1.trans hd2)

/-- Row comparison used by the model of `df.sort_values(["Ticker", "Date"])`:
compare the `(Ticker, Date)` keys lexicographically. -/
def rowLe (h : List String) (r1 r2 : List Cell) : Prop :=
  keyLeB (rowKey h r1) (rowKey h r2) = true

instance (h : List String) : DecidableRel (rowLe h) := by
  unfold rowLe
  infer_instance

instance (h : List String) : IsTotal (List Cell) (rowLe h) :=
  ⟨fun r1 r2 => keyLeB_total (rowKey h r1) (rowKey h r2)⟩

instance (h : List String) : IsTrans (List Cell) (rowLe h) :=
  ⟨fun _ _ _ h1 h2 => keyLeB_trans h1 h2⟩

/-- Model of `df.sort_values(["Ticker", "Date"])` (a stable sort, as pandas
uses a stable lexsort for multi-column keys). -/
def sort_values (t : Table) : Table :=
  Table.mk t.header (t.rows.insertionSort (rowLe t.header))

/-! ### data_processing.py -/

/-- The fixed output schema (data_processing.py lines 14-23). -/
def REQUIRED_COLUMNS : List String :=
  ["Date", "Open", "High", "Low", "Close", "Adj_Close", "Volume", "Ticker"]

/-- Columns coerced to numeric (data_processing.py line 76). -/
def NUMERIC_COLUMNS : List String :=
  ["Open", "High", "Low", "Close", "Adj_Close", "Volume"]

/-- The coercion loop of `clean_prices` (lines 76-78), generalised over the
column list for induction. -/
def coerceFold (cols : List String) (t : Table) : Table :=
  cols.foldl (fun t2 col => if col ∈ t2.header then mapCol t2 col to_numeric else t2) t

/-- The schema-fill loop of `clean_prices` (lines 85-87), generalised over the
column list for induction. -/
def fillFold (cols : List String) (t : Table) : Table :=
  cols.foldl (fun t2 col => if col ∈ t2.header then t2
                            else appendCol t2 col (fun _ => Cell.na)) t

/-- Model of `df[cols]`: project to exactly the listed columns in order. -/
def project (t : Table) (cols : List String) : Table :=
  Table.mk cols (t.rows.map (fun r => cols.map (fun c => getCell t.header r c)))

theorem project_header (w : Table) (cols : List String) : (project w cols).header = cols := rfl

theorem project_rows (w : Table) (cols : List String) :
    (project w cols).rows =
      w.rows.map (fun r => cols.map (fun c => getCell w.header r c)) := rfl

/-- Column-name normalisation of `clean_prices` (line 59). -/
def normalizeHeader (t : Table) : Table :=
  Table.mk (t.header.map normalizeName) t.rows

/-- The `Adj_Close` fallback of `clean_prices` (lines 67-69). -/
def adjFix (t : Table) : Table :=
  if "Adj_Close" ∉ t.header ∧ "Close" ∈ t.header
  then appendCol t "Adj_Close" (fun r => getCell t.header r "Close")
  else t

/-- The transformation `clean_prices` applies once its checks pass
(data_processing.py lines 67-89): `Adj_Close` fallback, date parsing, date
dropna, numeric coercion, dedup, sort, schema fill, and projection. -/
def clean_body (t : Table) : Table :=
  project
    (fillFold REQUIRED_COLUMNS
      (sort_values
        (drop_duplicates
          (coerceFold NUMERIC_COLUMNS
            (dropna_date
              (mapCol (adjFix t) "Date" to_datetime))))))
    REQUIRED_COLUMNS

/-- Model of `clean_prices` (data_processing.py lines 50-89).  The two
`KeyError` raises become `Except.error`; the Python messages quote the column
name, the quotes are omitted here. -/
def clean_prices (df : Table) : Except String Table :=
  let df1 := normalizeHeader df
  if "Ticker" ∉ df1.header then Except.error "Expected Ticker column is missing."
  else if "Date" ∉ df1.header then Except.error "Expected Date column is missing."
  else Except.ok (clean_body df1)

/-! ### Snapshot locator (data_processing.py lines 26-38)

A raw directory is embedded as the list of its file names, in whatever order
the filesystem happens to produce them (`Path.glob` guarantees no order). -/

/-- Model of matching the glob `{ticker}_raw_{version}_*.csv` against a file
name: the fixed stem is a prefix, `.csv` is a suffix, and the name is long
enough that the two do not overlap (`*` matches zero or more characters). -/
def matchesSnapshotGlob (ticker version name : String) : Prop :=
  (ticker ++ "_raw_" ++ version ++ "_").toList <+: name.toList ∧
    ".csv".toList <:+ name.toList ∧
    (ticker ++ "_raw_" ++ version ++ "_").length + 4 ≤ name.length

instance (ticker version name : String) :
    Decidable (matchesSnapshotGlob ticker version name) := by
  unfold matchesSnapshotGlob; infer_instance

/-- Python string comparison, as used by `sorted()` on file names: the
lexicographic order of the code-point sequences. -/
def strLe (a b : String) : Prop :=
  (natListLtB (strKey a) (strKey b) || a == b) = true

instance : DecidableRel strLe := by
  unfold strLe
  infer_instance

/-- Model of `latest_snapshot_for_ticker` (data_processing.py lines 26-38):
filter the directory listing by the glob, sort ascending, take the last.
The Python error message also embeds the directory path; the embedding
identifies a directory with its listing, so only ticker and glob appear. -/
def latest_snapshot_for_ticker (raw_dir : List String) (ticker version : String) :
    Except String String :=
  match ((raw_dir.filter fun n =>
      decide (matchesSnapshotGlob ticker version n)).insertionSort strLe).getLast? with
  | none => Except.error ("No raw snapshots found for " ++ ticker ++
      " (glob: " ++ ticker ++ "_raw_" ++ version ++ "_*.csv)")
  | some m => Except.ok m

/-! ### data_collection.py

The external provider (`yf.download`) returns a date-indexed OHLCV frame or
nothing; `save_snapshot` touches the filesystem.  Both effects are supplied
by an `Env`: per ticker, the provider's response and the outcome of saving
that ticker's snapshot (the saved path, or the I/O error message). -/

/-- A provider response: a frame indexed by dates, before `reset_index`. -/
structure PTable where
  dates : List Cell
  header : List String
  rows : List (List Cell)
deriving DecidableEq, Repr

/-- Model of `df.empty`: true iff either axis has length zero. -/
def PTable.empty (p : PTable) : Prop := p.rows = [] ∨ p.header = []

instance (p : PTable) : Decidable p.empty := by
  unfold PTable.empty; infer_instance

/-- Rectangularity of a provider frame, plus one index entry per row; every
real pandas frame satisfies this by construction. -/
def PTable.WF (p : PTable) : Prop :=
  (∀ r ∈ p.rows, r.length = p.header.length) ∧ p.dates.length = p.rows.length

instance (p : PTable) : Decidable p.WF := by
  unfold PTable.WF
  infer_instance

/-- Model of `df.reset_index()` on a date-indexed frame: the index becomes an
explicit leading `Date` column (yfinance names its history index `Date`). -/
def reset_index (p : PTable) : Table :=
  Table.mk ("Date" :: p.header) ((p.dates.zip p.rows).map (fun dr => dr.1 :: dr.2))

/-- Model of `df["Ticker"] = ticker`: overwrite the column when present,
append it otherwise. -/
def set_ticker_col (t : Table) (ticker : String) : Table :=
  if "Ticker" ∈ t.header then mapCol t "Ticker" (fun _ => Cell.str ticker)
  else appendCol t "Ticker" (fun _ => Cell.str ticker)

/-- The effects surrounding one batch run: per ticker, what the provider
returns (`none` models an absent result) and how saving that ticker's
snapshot turns out. -/
structure Env where
  fetch : String → Option PTable
  save : String → Except String String

/-- Model of `download_stock_data` (data_collection.py lines 17-39): fail when
the provider result is absent or empty, otherwise reset the index and stamp
the ticker column. -/
def download_stock_data (env : Env) (ticker : String) : Except String Table :=
  match env.fetch ticker with
  | none => Except.error ("No data returned for ticker: " ++ ticker)
  | some p =>
    if p.empty then Except.error ("No data returned for ticker: " ++ ticker)
    else Except.ok (set_ticker_col (reset_index p) ticker)

/-- Model of `download_many` (data_collection.py lines 56-84): per ticker in
order, fetch then save; a success appends the frame and the saved path, any
failure appends one `"{ticker}: {message}"` entry and moves on. -/
def download_many (env : Env) : List String → List Table × List String × List String
  | [] => ([], [], [])
  | ticker :: rest =>
    let acc := download_many env rest
    match download_stock_data env ticker with
    | Except.error e => (acc.1, (ticker ++ ": " ++ e) :: acc.2.1, acc.2.2)
    | Except.ok df =>
      match env.save ticker with
      | Except.error e => (acc.1, (ticker ++ ": " ++ e) :: acc.2.1, acc.2.2)
      | Except.ok path => (df :: acc.1, acc.2.1, path :: acc.2.2)

/-- A ticker succeeds fully when both the fetch and the save succeed. -/
def succeedsFully (env : Env) (ticker : String) : Prop :=
  (∃ t, download_stock_data env ticker = Except.ok t) ∧
    ∃ p, env.save ticker = Except.ok p

instance (env : Env) (ticker : String) : Decidable (succeedsFully env ticker) := by
  unfold succeedsFully
  rcases download_stock_data env ticker with e | t <;> rcases env.save ticker with e2 | p
  · exact isFalse (fun h => Except.noConfusion h.1.choose_spec)
  · exact isFalse (fun h => Except.noConfusion h.1.choose_spec)
  · exact isFalse (fun h => Except.noConfusion h.2.choose_spec)
  · exact isTrue ⟨⟨t, rfl⟩, ⟨p, rfl⟩⟩

/-- The frame a fully successful ticker contributes. -/
def tableOf (env : Env) (ticker : String) : Table :=
  match download_stock_data env ticker with
  | Except.ok t => t
  | Except.error _ => Table.mk [] []

/-- The path a fully successful ticker contributes. -/
def pathOf (env : Env) (ticker : String) : String :=
  match env.save ticker with
  | Except.ok p => p
  | Except.error _ => ""

/-- The failure entry a failing ticker contributes: `"{ticker}: {message}"`
with the message of the stage that failed. -/
def failEntryOf (env : Env) (ticker : String) : String :=
  match download_stock_data env ticker with
  | Except.error e => ticker ++ ": " ++ e
  | Except.ok _ =>
    match env.save ticker with
    | Except.error e => ticker ++ ": " ++ e
    | Except.ok _ => ""

/-! ### Toolkit: rows, headers and cell access -/

theorem getD_set_same : ∀ (r : List Cell) (i : Nat) (v : Cell), i < r.length →
    (r.set i v).getD i Cell.na = v
  | _ :: _, 0, _, _ => rfl
  | _ :: rs, i + 1, v, h => getD_set_same rs i v (Nat.lt_of_succ_lt_succ h)

theorem set_of_length_le : ∀ (r : List Cell) (i : Nat) (v : Cell), r.length ≤ i →
    r.set i v = r
  | [], _, _, _ => rfl
  | _ :: _, 0, _, h => absurd h (by simp)
  | a :: rs, i + 1, v, h => by
    simpa using set_of_length_le rs i v (Nat.le_of_succ_le_succ h)

theorem getD_set_other : ∀ (r : List Cell) (i j : Nat) (v : Cell), i ≠ j →
    (r.set i v).getD j Cell.na = r.getD j Cell.na
  | [], _, _, _, _ => rfl
  | _ :: _, 0, 0, _, hne => absurd rfl hne
  | _ :: _, 0, _ + 1, _, _ => rfl
  | _ :: _, _ + 1, 0, _, _ => rfl
  | _ :: rs, i + 1, j + 1, v, hne =>
    getD_set_other rs i j v (fun h => hne (by omega))

theorem getD_ge_length : ∀ (r : List Cell) (i : Nat), r.length ≤ i →
    r.getD i Cell.na = Cell.na
  | [], _, _ => by simp [List.getD]
  | _ :: _, 0, h => absurd h (by simp)
  | _ :: rs, i + 1, h => getD_ge_length rs i (Nat.le_of_succ_le_succ h)

theorem set_getD_self : ∀ (r : List Cell) (i : Nat),
    r.set i (r.getD i Cell.na) = r
  | [], _ => rfl
  | _ :: _, 0 => rfl
  | a :: rs, i + 1 => by simpa using set_getD_self rs i

theorem getD_append_left : ∀ (r s : List Cell) (i : Nat), i < r.length →
    (r ++ s).getD i Cell.na = r.getD i Cell.na
  | _ :: _, _, 0, _ => rfl
  | _ :: rs, s, i + 1, h => getD_append_left rs s i (Nat.lt_of_succ_lt_succ h)
  | [], _, i, h => absurd h (by simp)

theorem getD_append_at_length : ∀ (r : List Cell) (c : Cell),
    (r ++ [c]).getD r.length Cell.na = c
  | [], _ => rfl
  | _ :: rs, c => getD_append_at_length rs c

theorem getD_append_na : ∀ (r : List Cell) (i : Nat),
    (r ++ [Cell.na]).getD i Cell.na = r.getD i Cell.na
  | [], 0 => rfl
  | [], _ + 1 => by simp [List.getD]
  | _ :: _, 0 => rfl
  | _ :: rs, i + 1 => getD_append_na rs i

theorem colIdx_lt_length {h : List String} {name : String} (hm : name ∈ h) :
    colIdx h name < h.length := by
  induction h with
  | nil => cases hm
  | cons c cs ih =>
    by_cases hc : c = name
    · simp [colIdx, hc]
    · have hm' : name ∈ cs := (List.mem_cons.mp hm).resolve_left (fun e => hc e.symm)
      simpa [colIdx, hc] using ih hm'

theorem colIdx_eq_length {h : List String} {name : String} (hm : name ∉ h) :
    colIdx h name = h.length := by
  induction h with
  | nil => rfl
  | cons c cs ih =>
    have hc : c ≠ name := fun e => hm (e ▸ List.mem_cons_self c cs)
    have : name ∉ cs := fun m => hm (List.mem_cons_of_mem c m)
    simp [colIdx, hc, ih this]

theorem header_getD_colIdx {h : List String} {name : String} (hm : name ∈ h) :
    h.getD (colIdx h name) "" = name := by
  induction h with
  | nil => cases hm
  | cons c cs ih =>
    by_cases hc : c = name
    · simp [colIdx, hc]
    · have hm' : name ∈ cs := (List.mem_cons.mp hm).resolve_left (fun e => hc e.symm)
      simpa [colIdx, hc] using ih hm'

theorem colIdx_ne_of_ne {h : List String} {a b : String} (hab : a ≠ b)
    (ha : a ∈ h) (hb : b ∈ h) : colIdx h a ≠ colIdx h b := by
  intro he
  exact hab (by rw [← header_getD_colIdx ha, he, header_getD_colIdx hb])

theorem colIdx_append_of_mem {h : List String} {name : String} (hm : name ∈ h)
    (h2 : List String) : colIdx (h ++ h2) name = colIdx h name := by
  induction h with
  | nil => cases hm
  | cons c cs ih =>
    by_cases hc : c = name
    · simp [colIdx, hc]
    · have hm' : name ∈ cs := (List.mem_cons.mp hm).resolve_left (fun e => hc e.symm)
      simp [colIdx, hc, ih hm']

theorem colIdx_append_self {h : List String} {name : String} (hm : name ∉ h) :
    colIdx (h ++ [name]) name = h.length := by
  induction h with
  | nil => simp [colIdx]
  | cons c cs ih =>
    have hc : c ≠ name := fun e => hm (e ▸ List.mem_cons_self c cs)
    have : name ∉ cs := fun m => hm (List.mem_cons_of_mem c m)
    simp [colIdx, hc, ih this]

theorem map_getD_colIdx {cols : List String} {name : String} (f : String → Cell)
    (hm : name ∈ cols) : (cols.map f).getD (colIdx cols name) Cell.na = f name := by
  induction cols with
  | nil => cases hm
  | cons c cs ih =>
    by_cases hc : c = name
    · simp [colIdx, hc]
    · have hm' : name ∈ cs := (List.mem_cons.mp hm).resolve_left (fun e => hc e.symm)
      simpa [colIdx, hc] using ih hm'

/-- A cell built by the `date` constructor. -/
def IsDateCell (c : Cell) : Prop := ∃ s, c = Cell.date s

/-- A cell that is numeric or missing. -/
def IsNumOrNA (c : Cell) : Prop := (∃ s, c = Cell.num s) ∨ c = Cell.na

theorem to_datetime_shape (c : Cell) : IsDateCell (to_datetime c) ∨ to_datetime c = Cell.na := by
  rcases c with s | s | s | _
  · by_cases h : isIsoDate s
    · exact Or.inl ⟨s, by simp [to_datetime, h]⟩
    · exact Or.inr (by simp [to_datetime, h])
  · exact Or.inr rfl
  · exact Or.inl ⟨s, rfl⟩
  · exact Or.inr rfl

theorem to_numeric_shape (c : Cell) : IsNumOrNA (to_numeric c) := by
  rcases c with s | s | s | _
  · by_cases h : isNumericStr s
    · exact Or.inl ⟨s, by simp [to_numeric, h]⟩
    · exact Or.inr (by simp [to_numeric, h])
  · exact Or.inl ⟨s, rfl⟩
  · exact Or.inr rfl
  · exact Or.inr rfl

theorem to_datetime_fix {c : Cell} (h : IsDateCell c) : to_datetime c = c := by
  rcases h with ⟨s, rfl⟩; rfl

theorem to_numeric_fix {c : Cell} (h : IsNumOrNA c) : to_numeric c = c := by
  rcases h with ⟨s, rfl⟩ | rfl <;> rfl

/-! Reads through a single-column rewrite (`mapCol`). -/

theorem getCell_setcell_self {h : List String} {name : String} {f : Cell → Cell}
    (hf : f Cell.na = Cell.na) (r : List Cell) :
    getCell h (r.set (colIdx h name) (f (getCell h r name))) name = f (getCell h r name) := by
  rcases Nat.lt_or_ge (colIdx h name) r.length with hi | hi
  · exact getD_set_same r _ _ hi
  · unfold getCell
    rw [set_of_length_le r _ _ hi, getD_ge_length r _ hi, hf]

theorem getCell_setcell_other {h : List String} {name name2 : String}
    (hn : name ∈ h) (hne : name2 ≠ name) (r : List Cell) (v : Cell) :
    getCell h (r.set (colIdx h name) v) name2 = getCell h r name2 := by
  have hij : colIdx h name ≠ colIdx h name2 := by
    by_cases h2 : name2 ∈ h
    · exact colIdx_ne_of_ne (fun e => hne e.symm) hn h2
    · rw [colIdx_eq_length h2]
      exact Nat.ne_of_lt (colIdx_lt_length hn)
  exact getD_set_other r _ _ v hij

/-! Reads through a column append (`appendCol`). -/

theorem getCell_append_mem {h : List String} {name n : String} (hn : name ∈ h)
    {r : List Cell} (hlen : r.length = h.length) (c : Cell) :
    getCell (h ++ [n]) (r ++ [c]) name = getCell h r name := by
  unfold getCell
  rw [colIdx_append_of_mem hn, getD_append_left]
  rw [hlen]; exact colIdx_lt_length hn

theorem getCell_append_mem_na {h : List String} {name n : String} (hn : name ∈ h)
    (r : List Cell) : getCell (h ++ [n]) (r ++ [Cell.na]) name = getCell h r name := by
  unfold getCell
  rw [colIdx_append_of_mem hn, getD_append_na]

theorem getCell_append_self {h : List String} {n : String} (hn : n ∉ h)
    {r : List Cell} (hlen : r.length = h.length) (c : Cell) :
    getCell (h ++ [n]) (r ++ [c]) n = c := by
  unfold getCell
  rw [colIdx_append_self hn, ← hlen, getD_append_at_length]

theorem getCell_not_mem {h : List String} {name : String} (hn : name ∉ h)
    {r : List Cell} (hlen : r.length ≤ h.length) : getCell h r name = Cell.na := by
  unfold getCell
  exact getD_ge_length r _ (by rw [colIdx_eq_length hn]; exact hlen)

/-! Deduplication. -/

theorem dropDups_sublist (h : List String) :
    ∀ (seen : List (Cell × Cell)) (rs : List (List Cell)),
      (dropDupsFrom h seen rs).Sublist rs
  | _, [] => List.Sublist.refl []
  | seen, r :: rs => by
    unfold dropDupsFrom
    by_cases hs : rowKey h r ∈ seen
    · simp only [hs, if_pos]
      exact (dropDups_sublist h seen rs).cons r
    · simp only [hs, if_neg, not_false_iff]
      exact (dropDups_sublist h _ rs).cons₂ r

theorem dropDups_spec (h : List String) :
    ∀ (seen : List (Cell × Cell)) (rs : List (List Cell)),
      ((dropDupsFrom h seen rs).map (rowKey h)).Nodup ∧
        ∀ k ∈ (dropDupsFrom h seen rs).map (rowKey h), k ∉ seen
  | _, [] => by constructor <;> simp [dropDupsFrom]
  | seen, r :: rs => by
    unfold dropDupsFrom
    by_cases hs : rowKey h r ∈ seen
    · simpa only [hs, if_pos] using dropDups_spec h seen rs
    · obtain ⟨hnd, hdisj⟩ := dropDups_spec h (rowKey h r :: seen) rs
      simp only [hs, if_neg, not_false_iff, List.map_cons]
      constructor
      · exact List.nodup_cons.mpr
          ⟨fun hmem => (hdisj _ hmem) (List.mem_cons_self _ _), hnd⟩
      · intro k hk
        rcases List.mem_cons.mp hk with rfl | hk2
        · exact hs
        · exact fun hmem => (hdisj k hk2) (List.mem_cons_of_mem _ hmem)

theorem dropDups_id (h : List String) :
    ∀ (seen : List (Cell × Cell)) (rs : List (List Cell)),
      (rs.map (rowKey h)).Nodup → (∀ r ∈ rs, rowKey h r ∉ seen) →
      dropDupsFrom h seen rs = rs
  | _, [], _, _ => rfl
  | seen, r :: rs, hnd, hdisj => by
    unfold dropDupsFrom
    have hs : rowKey h r ∉ seen := hdisj r (List.mem_cons_self r rs)
    rw [List.map_cons, List.nodup_cons] at hnd
    have hnd' := hnd
    simp only [hs, if_neg, not_false_iff]
    congr 1
    refine dropDups_id h _ rs hnd'.2 ?_
    intro r2 hr2 hmem
    rcases List.mem_cons.mp hmem with he | hseen
    · exact hnd'.1 (he ▸ List.mem_map_of_mem (rowKey h) hr2)
    · exact hdisj r2 (List.mem_cons_of_mem r hr2) hseen

/-! The numeric-coercion fold (`clean_prices` lines 76-78). -/

theorem coerceFold_header : ∀ (cols : List String) (t : Table),
    (coerceFold cols t).header = t.header
  | [], _ => rfl
  | col :: cols, t => by
    unfold coerceFold
    rw [List.foldl_cons]
    by_cases hc : col ∈ t.header
    · simp only [hc, if_pos]
      exact coerceFold_header cols (mapCol t col to_numeric)
    · simp only [hc, if_neg, not_false_iff]
      exact coerceFold_header cols t

theorem mapCol_header (t : Table) (name : String) (f : Cell → Cell) :
    (mapCol t name f).header = t.header := rfl

theorem coerceFold_rows_char : ∀ (cols : List String), cols.Nodup → ∀ (t : Table),
    ∀ r2 ∈ (coerceFold cols t).rows, ∃ r ∈ t.rows, r2.length = r.length ∧
      ∀ name, getCell t.header r2 name =
        if name ∈ cols ∧ name ∈ t.header then to_numeric (getCell t.header r name)
        else getCell t.header r name
  | [], _, t, r2, hr2 => ⟨r2, hr2, rfl, fun name => by simp⟩
  | col :: cols, hnd, t, r2, hr2 => by
    rw [List.nodup_cons] at hnd
    unfold coerceFold at hr2
    rw [List.foldl_cons] at hr2
    by_cases hc : col ∈ t.header
    · simp only [hc, if_pos] at hr2
      obtain ⟨r1, hr1, hlen1, hread1⟩ :=
        coerceFold_rows_char cols hnd.2 (mapCol t col to_numeric) r2 hr2
      rw [mapCol_header] at hread1
      obtain ⟨r, hr, hset⟩ := List.mem_map.mp hr1
      refine ⟨r, hr, by rw [hlen1, ← hset, List.length_set], ?_⟩
      intro name
      have hfix1 : getCell t.header r1 name =
          if name = col then to_numeric (getCell t.header r col)
          else getCell t.header r name := by
        by_cases hname : name = col
        · subst hname
          rw [if_pos rfl, ← hset]
          exact getCell_setcell_self rfl r
        · rw [if_neg hname, ← hset]
          exact getCell_setcell_other hc hname r _
      rw [hread1 name, hfix1]
      by_cases hname : name = col
      · subst hname
        rw [if_pos rfl, if_neg (fun hcon => hnd.1 hcon.1),
          if_pos ⟨List.mem_cons_self _ _, hc⟩]
      · rw [if_neg hname]
        by_cases h2 : name ∈ cols ∧ name ∈ t.header
        · rw [if_pos h2, if_pos ⟨List.mem_cons_of_mem _ h2.1, h2.2⟩]
        · rw [if_neg h2, if_neg
            (fun hcon => h2 ⟨(List.mem_cons.mp hcon.1).resolve_left hname, hcon.2⟩)]
    · simp only [hc, if_neg, not_false_iff] at hr2
      obtain ⟨r, hr, hlen, hread⟩ := coerceFold_rows_char cols hnd.2 t r2 hr2
      refine ⟨r, hr, hlen, fun name => ?_⟩
      rw [hread name]
      by_cases h2 : name ∈ cols ∧ name ∈ t.header
      · rw [if_pos h2, if_pos ⟨List.mem_cons_of_mem _ h2.1, h2.2⟩]
      · rw [if_neg h2, if_neg ?_]
        intro hcon
        rcases List.mem_cons.mp hcon.1 with he | hmem
        · exact hc (he ▸ hcon.2)
        · exact h2 ⟨hmem, hcon.2⟩

/-- Identity of the coercion fold when every touched cell is already
numeric-or-missing. -/
theorem coerceFold_id : ∀ (cols : List String) (t : Table),
    (∀ col ∈ cols, ∀ r ∈ t.rows, IsNumOrNA (getCell t.header r col)) →
    coerceFold cols t = t
  | [], _, _ => rfl
  | col :: cols, t, hfix => by
    unfold coerceFold
    rw [List.foldl_cons]
    by_cases hc : col ∈ t.header
    · simp only [hc, if_pos]
      have hmap : mapCol t col to_numeric = t := by
        unfold mapCol
        rcases t with ⟨h, rows⟩
        simp only [Table.mk.injEq, true_and]
        rw [List.map_congr_left, List.map_id]
        intro r hr
        rw [to_numeric_fix (hfix col (List.mem_cons_self _ _) r hr)]
        exact set_getD_self r _
      rw [hmap]
      exact coerceFold_id cols t (fun c hcm => hfix c (List.mem_cons_of_mem _ hcm))
    · simp only [hc, if_neg, not_false_iff]
      exact coerceFold_id cols t (fun c hcm => hfix c (List.mem_cons_of_mem _ hcm))

/-! The schema-fill fold (`clean_prices` lines 85-87). -/

theorem fillFold_id : ∀ (cols : List String) (t : Table),
    (∀ col ∈ cols, col ∈ t.header) → fillFold cols t = t
  | [], _, _ => rfl
  | col :: cols, t, hall => by
    unfold fillFold
    rw [List.foldl_cons]
    simp only [hall col (List.mem_cons_self _ _), if_pos]
    exact fillFold_id cols t (fun c hcm => hall c (List.mem_cons_of_mem _ hcm))

theorem fillFold_spec : ∀ (cols : List String) (t : Table),
    ∃ (added : List String) (g : List Cell → List Cell),
      (fillFold cols t).header = t.header ++ added ∧
      (fillFold cols t).rows = t.rows.map g ∧
      (∀ r, (g r).length = r.length + added.length) ∧
      (∀ name r, name ∈ t.header →
        getCell (t.header ++ added) (g r) name = getCell t.header r name) ∧
      (∀ name r, name ∉ t.header → r.length = t.header.length →
        getCell (t.header ++ added) (g r) name = Cell.na)
  | [], t => by
    refine ⟨[], id, by simp [fillFold], by simp [fillFold], by simp, ?_, ?_⟩
    · intro name r _
      simp
    · intro name r hn hlen
      simpa using getCell_not_mem hn (le_of_eq hlen)
  | col :: cols, t => by
    by_cases hc : col ∈ t.header
    · have hstep : fillFold (col :: cols) t = fillFold cols t := by
        unfold fillFold
        rw [List.foldl_cons]
        simp only [hc, if_pos]
      rw [hstep]
      exact fillFold_spec cols t
    · have hstep : fillFold (col :: cols) t =
          fillFold cols (appendCol t col (fun _ => Cell.na)) := by
        unfold fillFold
        rw [List.foldl_cons]
        simp only [hc, if_neg, not_false_iff]
      rw [hstep]
      obtain ⟨added, g, hh, hrows, hlen, hmem, hmiss⟩ :=
        fillFold_spec cols (appendCol t col (fun _ => Cell.na))
      have hdr : (appendCol t col (fun _ => Cell.na)).header = t.header ++ [col] := rfl
      refine ⟨col :: added, fun r => g (r ++ [Cell.na]), ?_, ?_, ?_, ?_, ?_⟩
      · rw [hh, hdr, List.append_assoc]
        rfl
      · rw [hrows]
        unfold appendCol
        rw [List.map_map]
        rfl
      · intro r
        rw [hlen (r ++ [Cell.na])]
        simp only [List.length_append, List.length_cons, List.length_nil]
        omega
      · intro name r hn
        have hassoc : t.header ++ (col :: added) = (t.header ++ [col]) ++ added := by
          rw [List.append_assoc]
          rfl
        rw [hassoc, ← hdr,
          hmem name (r ++ [Cell.na]) (hdr ▸ List.mem_append_left [col] hn), hdr]
        exact getCell_append_mem_na hn r
      · intro name r hn hlenr
        have hassoc : t.header ++ (col :: added) = (t.header ++ [col]) ++ added := by
          rw [List.append_assoc]
          rfl
        by_cases hnc : name = col
        · subst hnc
          rw [hassoc, ← hdr,
            hmem name (r ++ [Cell.na]) (hdr ▸ List.mem_append_right t.header
              (List.mem_singleton_self name)), hdr]
          exact getCell_append_self hn hlenr Cell.na
        · have hn2 : name ∉ (appendCol t col (fun _ => Cell.na)).header := by
            rw [hdr, List.mem_append]
            rintro (h1 | h2)
            · exact hn h1
            · exact hnc (List.mem_singleton.mp h2)
          rw [hassoc, ← hdr]
          refine hmiss name (r ++ [Cell.na]) hn2 ?_
          rw [hdr]
          simp [hlenr]

/-! ### Shape of `clean_prices` output -/

theorem getCell_project_read {cols h : List String} {r : List Cell} {name : String}
    (hm : name ∈ cols) :
    getCell cols (cols.map (fun c => getCell h r c)) name = getCell h r name :=
  map_getD_colIdx (fun c => getCell h r c) hm

theorem rowKey_congr {h1 h2 : List String} {r1 r2 : List Cell}
    (ht : getCell h1 r1 "Ticker" = getCell h2 r2 "Ticker")
    (hd : getCell h1 r1 "Date" = getCell h2 r2 "Date") :
    rowKey h1 r1 = rowKey h2 r2 := by
  unfold rowKey
  rw [ht, hd]

theorem clean_prices_ok_elim {df out : Table} (hok : clean_prices df = Except.ok out) :
    "Ticker" ∈ (normalizeHeader df).header ∧ "Date" ∈ (normalizeHeader df).header ∧
      out = clean_body (normalizeHeader df) := by
  unfold clean_prices at hok
  by_cases h1 : "Ticker" ∉ (normalizeHeader df).header
  · simp [h1] at hok
  · by_cases h2 : "Date" ∉ (normalizeHeader df).header
    · simp [h1, h2] at hok
    · push_neg at h1 h2
      simp only [h1, h2, not_true_eq_false, if_neg, if_false, not_false_iff,
        Except.ok.injEq] at hok
      exact ⟨h1, h2, hok.symm⟩

theorem clean_body_header (t : Table) : (clean_body t).header = REQUIRED_COLUMNS := rfl

theorem adjFix_mem {t : Table} {name : String} (hm : name ∈ t.header) :
    name ∈ (adjFix t).header := by
  unfold adjFix
  by_cases hc : "Adj_Close" ∉ t.header ∧ "Close" ∈ t.header
  · simp only [hc, if_pos]
    exact List.mem_append_left _ hm
  · simp only [hc, if_neg, not_false_iff]
    exact hm

/-- Keys and ordering of the back end of the pipeline: after dedup, sort,
schema fill and projection, rows have pairwise distinct `(Ticker, Date)` keys
and are sorted by them. -/
theorem backend_keys (u : Table) (hT : "Ticker" ∈ u.header) (hD : "Date" ∈ u.header) :
    (((project (fillFold REQUIRED_COLUMNS (sort_values (drop_duplicates u)))
        REQUIRED_COLUMNS).rows).map (rowKey REQUIRED_COLUMNS)).Nodup ∧
      List.Sorted (rowLe REQUIRED_COLUMNS)
        (project (fillFold REQUIRED_COLUMNS (sort_values (drop_duplicates u)))
          REQUIRED_COLUMNS).rows := by
  have hh7 : (sort_values (drop_duplicates u)).header = u.header := rfl
  have hkeys6 : ((drop_duplicates u).rows.map (rowKey u.header)).Nodup :=
    (dropDups_spec u.header [] u.rows).1
  have hperm : (sort_values (drop_duplicates u)).rows.Perm (drop_duplicates u).rows :=
    List.perm_insertionSort _ _
  have hkeys7 : ((sort_values (drop_duplicates u)).rows.map (rowKey u.header)).Nodup :=
    ((hperm.map (rowKey u.header)).nodup_iff).mpr hkeys6
  have hsorted7 : List.Sorted (rowLe u.header) (sort_values (drop_duplicates u)).rows :=
    List.sorted_insertionSort _ _
  obtain ⟨added, g, hh8, hrows8, _, hmem8, _⟩ :=
    fillFold_spec REQUIRED_COLUMNS (sort_values (drop_duplicates u))
  rw [hh7] at hh8 hmem8
  have hread8 : ∀ r, rowKey (u.header ++ added) (g r) = rowKey u.header r :=
    fun r => rowKey_congr (hmem8 "Ticker" r hT) (hmem8 "Date" r hD)
  have hTreq : "Ticker" ∈ REQUIRED_COLUMNS := by decide
  have hDreq : "Date" ∈ REQUIRED_COLUMNS := by decide
  have hptwise : ∀ r, rowKey REQUIRED_COLUMNS
      (List.map (fun c => getCell (fillFold REQUIRED_COLUMNS
        (sort_values (drop_duplicates u))).header (g r) c) REQUIRED_COLUMNS) =
      rowKey u.header r := by
    intro r
    rw [rowKey_congr (getCell_project_read hTreq) (getCell_project_read hDreq), hh8]
    exact hread8 r
  constructor
  · rw [project_rows, hrows8, List.map_map, List.map_map]
    simp only [Function.comp_def]
    simp only [hptwise]
    exact hkeys7
  · rw [project_rows, hrows8, List.map_map]
    unfold List.Sorted at hsorted7 ⊢
    rw [List.pairwise_map]
    refine hsorted7.imp ?_
    intro a b hab
    simp only [Function.comp_def]
    unfold rowLe
    rw [hptwise a, hptwise b]
    exact hab

/-- Header equality down the middle of the pipeline. -/
theorem midstage_header (t : Table) :
    (coerceFold NUMERIC_COLUMNS
      (dropna_date (mapCol (adjFix t) "Date" to_datetime))).header =
      (adjFix t).header := by
  rw [coerceFold_header]
  rfl

theorem clean_body_keys (t : Table)
    (hT : "Ticker" ∈ (adjFix t).header) (hD : "Date" ∈ (adjFix t).header) :
    ((clean_body t).rows.map (rowKey REQUIRED_COLUMNS)).Nodup ∧
      List.Sorted (rowLe REQUIRED_COLUMNS) (clean_body t).rows := by
  unfold clean_body
  exact backend_keys _ ((midstage_header t).symm ▸ hT) ((midstage_header t).symm ▸ hD)

/-! ### Identity of a second cleaning pass on already-clean data -/

theorem mapCol_id {t : Table} {name : String} {f : Cell → Cell}
    (hfix : ∀ r ∈ t.rows, f (getCell t.header r name) = getCell t.header r name) :
    mapCol t name f = t := by
  unfold mapCol
  rcases t with ⟨h, rows⟩
  simp only [Table.mk.injEq, true_and]
  rw [List.map_congr_left, List.map_id]
  intro r hr
  rw [hfix r hr]
  exact set_getD_self r _

theorem dropna_date_id {t : Table}
    (hall : ∀ r ∈ t.rows, getCell t.header r "Date" ≠ Cell.na) : dropna_date t = t := by
  unfold dropna_date
  rcases t with ⟨h, rows⟩
  simp only [Table.mk.injEq, true_and]
  rw [List.filter_eq_self]
  intro r hr
  simpa using hall r hr

theorem drop_duplicates_id {t : Table}
    (hnd : (t.rows.map (rowKey t.header)).Nodup) : drop_duplicates t = t := by
  unfold drop_duplicates
  rcases t with ⟨h, rows⟩
  simp only [Table.mk.injEq, true_and]
  exact dropDups_id h [] rows hnd (fun r _ => List.not_mem_nil _)

theorem sort_values_id {t : Table}
    (hs : List.Sorted (rowLe t.header) t.rows) : sort_values t = t := by
  unfold sort_values
  rcases t with ⟨h, rows⟩
  simp only [Table.mk.injEq, true_and]
  exact hs.insertionSort_eq

theorem adjFix_id {t : Table} (hA : "Adj_Close" ∈ t.header) : adjFix t = t := by
  unfold adjFix
  rw [if_neg]
  intro hcon
  exact hcon.1 hA

theorem projRow_id : ∀ (r : List Cell), r.length = 8 →
    REQUIRED_COLUMNS.map (fun c => getCell REQUIRED_COLUMNS r c) = r := by
  intro r hr
  rcases r with _ | ⟨a, _ | ⟨b, _ | ⟨c, _ | ⟨d, _ | ⟨e, _ | ⟨f, _ | ⟨g, _ | ⟨h, _ | ⟨i, tl⟩⟩⟩⟩⟩⟩⟩⟩⟩ <;>
    simp only [List.length_cons, List.length_nil] at hr <;> try omega
  rfl

theorem project_id {v : Table} (hh : v.header = REQUIRED_COLUMNS)
    (hlen : ∀ r ∈ v.rows, r.length = 8) : project v REQUIRED_COLUMNS = v := by
  rcases v with ⟨h, rows⟩
  simp only at hh
  subst hh
  unfold project
  simp only [Table.mk.injEq, true_and]
  rw [List.map_congr_left, List.map_id]
  intro r hr
  exact projRow_id r (hlen r hr)

theorem normalize_required : REQUIRED_COLUMNS.map normalizeName = REQUIRED_COLUMNS := by decide

/-- A full second pass of the clean transformation leaves an already-clean
table untouched. -/
theorem clean_body_fix {v : Table} (hh : v.header = REQUIRED_COLUMNS)
    (hlen : ∀ r ∈ v.rows, r.length = 8)
    (hdate : ∀ r ∈ v.rows, IsDateCell (getCell REQUIRED_COLUMNS r "Date"))
    (hnum : ∀ r ∈ v.rows, ∀ c ∈ NUMERIC_COLUMNS, IsNumOrNA (getCell REQUIRED_COLUMNS r c))
    (hkeys : (v.rows.map (rowKey REQUIRED_COLUMNS)).Nodup)
    (hsorted : List.Sorted (rowLe REQUIRED_COLUMNS) v.rows) :
    clean_body v = v := by
  have hadj : adjFix v = v := adjFix_id (by rw [hh]; decide)
  have hmap : mapCol v "Date" to_datetime = v := by
    refine mapCol_id ?_
    intro r hr
    rw [hh]
    exact to_datetime_fix (hdate r hr)
  have hdrop : dropna_date v = v := by
    refine dropna_date_id ?_
    intro r hr
    obtain ⟨s, hs⟩ := hdate r hr
    rw [hh, hs]
    exact fun hcon => Cell.noConfusion hcon
  have hcoerce : coerceFold NUMERIC_COLUMNS v = v := by
    refine coerceFold_id NUMERIC_COLUMNS v ?_
    intro c hc r hr
    rw [hh]
    exact hnum r hr c hc
  have hdedup : drop_duplicates v = v := drop_duplicates_id (by rw [hh]; exact hkeys)
  have hsort : sort_values v = v := sort_values_id (by rw [hh]; exact hsorted)
  have hfill : fillFold REQUIRED_COLUMNS v = v :=
    fillFold_id REQUIRED_COLUMNS v (fun c hc => by rw [hh]; exact hc)
  unfold clean_body
  rw [hadj, hmap, hdrop, hcoerce, hdedup, hsort, hfill]
  exact project_id hh hlen

/-- `clean_prices` итself is the identity on an already-clean table. -/
theorem clean_prices_fix {v : Table} (hh : v.header = REQUIRED_COLUMNS)
    (hlen : ∀ r ∈ v.rows, r.length = 8)
    (hdate : ∀ r ∈ v.rows, IsDateCell (getCell REQUIRED_COLUMNS r "Date"))
    (hnum : ∀ r ∈ v.rows, ∀ c ∈ NUMERIC_COLUMNS, IsNumOrNA (getCell REQUIRED_COLUMNS r c))
    (hkeys : (v.rows.map (rowKey REQUIRED_COLUMNS)).Nodup)
    (hsorted : List.Sorted (rowLe REQUIRED_COLUMNS) v.rows) :
    clean_prices v = Except.ok v := by
  have hnorm : normalizeHeader v = v := by
    rcases v with ⟨h, rows⟩
    simp only at hh
    subst hh
    unfold normalizeHeader
    rw [normalize_required]
  unfold clean_prices
  rw [hnorm]
  rw [if_neg (by rw [hh]; decide), if_neg (by rw [hh]; decide)]
  rw [clean_body_fix hh hlen hdate hnum hkeys hsorted]

/-! ### Cell shapes of `clean_prices` output (rectangular input) -/

theorem mem_sort_rows {t : Table} {r : List Cell} (hr : r ∈ (sort_values t).rows) :
    r ∈ t.rows := by
  unfold sort_values at hr
  simpa using hr

theorem mem_dedup_rows {t : Table} {r : List Cell} (hr : r ∈ (drop_duplicates t).rows) :
    r ∈ t.rows :=
  (dropDups_sublist t.header [] t.rows).subset hr

/-- Shapes of the cells of a `clean_body` output, for a rectangular input:
every row has exactly 8 cells, the `Date` cell is a datetime, and each of the
six numeric columns holds a number or a missing value. -/
theorem clean_body_cells (t : Table) (hWF : t.WF)
    (hD : "Date" ∈ (adjFix t).header) :
    (∀ r ∈ (clean_body t).rows, r.length = 8) ∧
      (∀ r ∈ (clean_body t).rows, IsDateCell (getCell REQUIRED_COLUMNS r "Date")) ∧
      (∀ r ∈ (clean_body t).rows, ∀ c ∈ NUMERIC_COLUMNS,
        IsNumOrNA (getCell REQUIRED_COLUMNS r c)) := by
  -- stage shorthands (all definitional equalities, kept explicit)
  have hWF2 : (adjFix t).WF := by
    unfold adjFix
    by_cases hc : "Adj_Close" ∉ t.header ∧ "Close" ∈ t.header
    · simp only [hc, if_pos]
      intro r hr
      rcases List.mem_map.mp hr with ⟨r0, hr0, rfl⟩
      simp [appendCol, hWF r0 hr0]
    · simp only [hc, if_neg, not_false_iff]
      exact hWF
  have hh3 : (mapCol (adjFix t) "Date" to_datetime).header = (adjFix t).header := rfl
  have hh4 : (dropna_date (mapCol (adjFix t) "Date" to_datetime)).header =
      (adjFix t).header := rfl
  -- Date cells after parsing and dropna are datetimes
  have hdate4 : ∀ r ∈ (dropna_date (mapCol (adjFix t) "Date" to_datetime)).rows,
      IsDateCell (getCell (adjFix t).header r "Date") := by
    intro r hr
    unfold dropna_date at hr
    have hne := List.of_mem_filter hr
    have hr3 := List.mem_of_mem_filter hr
    simp only [decide_eq_true_eq] at hne
    unfold mapCol at hr3
    rcases List.mem_map.mp hr3 with ⟨r2, _, rfl⟩
    have hread := @getCell_setcell_self (adjFix t).header "Date" to_datetime rfl r2
    rw [hh3] at hne
    rcases to_datetime_shape (getCell (adjFix t).header r2 "Date") with hd | hd
    · rw [hread]
      exact hd
    · exfalso
      apply hne
      rw [hread, hd]
  -- lengths after parsing and dropna
  have hWF4 : ∀ r ∈ (dropna_date (mapCol (adjFix t) "Date" to_datetime)).rows,
      r.length = (adjFix t).header.length := by
    intro r hr
    unfold dropna_date at hr
    have hr3 := List.mem_of_mem_filter hr
    unfold mapCol at hr3
    rcases List.mem_map.mp hr3 with ⟨r2, hr2, rfl⟩
    rw [List.length_set]
    exact hWF2 r2 hr2
  have hndnum : NUMERIC_COLUMNS.Nodup := by decide
  -- shapes after numeric coercion
  have hchar := coerceFold_rows_char NUMERIC_COLUMNS hndnum
    (dropna_date (mapCol (adjFix t) "Date" to_datetime))
  have hdate5 : ∀ r ∈ (coerceFold NUMERIC_COLUMNS
      (dropna_date (mapCol (adjFix t) "Date" to_datetime))).rows,
      IsDateCell (getCell (adjFix t).header r "Date") := by
    intro r hr
    obtain ⟨r4, hr4, _, hread⟩ := hchar r hr
    have hrd := hread "Date"
    rw [if_neg (fun hcon => (by decide : "Date" ∉ NUMERIC_COLUMNS) hcon.1)] at hrd
    rw [hh4] at hrd
    rw [hrd]
    exact hdate4 r4 hr4
  have hWF5 : ∀ r ∈ (coerceFold NUMERIC_COLUMNS
      (dropna_date (mapCol (adjFix t) "Date" to_datetime))).rows,
      r.length = (adjFix t).header.length := by
    intro r hr
    obtain ⟨r4, hr4, hlen, _⟩ := hchar r hr
    rw [hlen]
    exact hWF4 r4 hr4
  have hnum5 : ∀ r ∈ (coerceFold NUMERIC_COLUMNS
      (dropna_date (mapCol (adjFix t) "Date" to_datetime))).rows,
      ∀ c ∈ NUMERIC_COLUMNS, c ∈ (adjFix t).header →
        IsNumOrNA (getCell (adjFix t).header r c) := by
    intro r hr c hc hch
    obtain ⟨r4, hr4, _, hread⟩ := hchar r hr
    have hrc := hread c
    rw [hh4] at hrc
    rw [if_pos ⟨hc, hch⟩] at hrc
    rw [hrc]
    exact to_numeric_shape _
  have hmem76 : ∀ r ∈ (sort_values (drop_duplicates (coerceFold NUMERIC_COLUMNS
      (dropna_date (mapCol (adjFix t) "Date" to_datetime))))).rows,
      r ∈ (coerceFold NUMERIC_COLUMNS
        (dropna_date (mapCol (adjFix t) "Date" to_datetime))).rows :=
    fun r hr => mem_dedup_rows (mem_sort_rows hr)
  obtain ⟨added, g, hh8, hrows8, _, hmem8, hmiss8⟩ :=
    fillFold_spec REQUIRED_COLUMNS (sort_values (drop_duplicates (coerceFold NUMERIC_COLUMNS
      (dropna_date (mapCol (adjFix t) "Date" to_datetime)))))
  have hsd : ∀ w : Table, (sort_values (drop_duplicates w)).header = w.header :=
    fun w => rfl
  have hh7u : (sort_values (drop_duplicates (coerceFold NUMERIC_COLUMNS
      (dropna_date (mapCol (adjFix t) "Date" to_datetime))))).header =
      (adjFix t).header := (hsd _).trans (midstage_header t)
  rw [hh7u] at hh8 hmem8 hmiss8
  have hout : (clean_body t).rows =
      (fillFold REQUIRED_COLUMNS (sort_values (drop_duplicates (coerceFold NUMERIC_COLUMNS
        (dropna_date (mapCol (adjFix t) "Date" to_datetime)))))).rows.map
        (fun r => REQUIRED_COLUMNS.map
          (fun c => getCell (fillFold REQUIRED_COLUMNS (sort_values (drop_duplicates
            (coerceFold NUMERIC_COLUMNS
              (dropna_date (mapCol (adjFix t) "Date" to_datetime)))))).header r c)) :=
    project_rows _ _
  have hDreq : "Date" ∈ REQUIRED_COLUMNS := by decide
  have hsub : ∀ c ∈ NUMERIC_COLUMNS, c ∈ REQUIRED_COLUMNS := by decide
  refine ⟨?_, ?_, ?_⟩
  · intro rout hrout
    rw [hout] at hrout
    rcases List.mem_map.mp hrout with ⟨r8, _, rfl⟩
    simp [REQUIRED_COLUMNS]
  · intro rout hrout
    rw [hout] at hrout
    rcases List.mem_map.mp hrout with ⟨r8, hr8, rfl⟩
    rw [hrows8] at hr8
    rcases List.mem_map.mp hr8 with ⟨r7, hr7, rfl⟩
    rw [getCell_project_read hDreq, hh8, hmem8 "Date" r7 hD]
    exact hdate5 r7 (hmem76 r7 hr7)
  · intro rout hrout c hc
    rw [hout] at hrout
    rcases List.mem_map.mp hrout with ⟨r8, hr8, rfl⟩
    rw [hrows8] at hr8
    rcases List.mem_map.mp hr8 with ⟨r7, hr7, rfl⟩
    rw [getCell_project_read (hsub c hc), hh8]
    by_cases hch : c ∈ (adjFix t).header
    · rw [hmem8 c r7 hch]
      exact hnum5 r7 (hmem76 r7 hr7) c hc hch
    · rw [hmiss8 c r7 hch (hWF5 r7 (hmem76 r7 hr7))]
      exact Or.inr rfl

theorem normalizeHeader_WF {df : Table} (h : df.WF) : (normalizeHeader df).WF := by
  intro r hr
  have hh : (normalizeHeader df).header = df.header.map normalizeName := rfl
  rw [hh, List.length_map]
  exact h r hr

/-! ### Claims C1-C4 -/

/-- C1: for every raw table accepted by `clean_prices` (one that has `Ticker`
and `Date` columns after name normalisation), the output has exactly the eight
required columns in the required order, no two rows share a `(Ticker, Date)`
pair, and rows are sorted ascending by `(Ticker, Date)`. -/
theorem C1_clean_output_schema {df out : Table}
    (hok : clean_prices df = Except.ok out) :
    out.header = REQUIRED_COLUMNS ∧
      (out.rows.map (rowKey REQUIRED_COLUMNS)).Nodup ∧
      List.Sorted (rowLe REQUIRED_COLUMNS) out.rows := by
  obtain ⟨hT, hD, rfl⟩ := clean_prices_ok_elim hok
  exact ⟨clean_body_header _,
    (clean_body_keys _ (adjFix_mem hT) (adjFix_mem hD)).1,
    (clean_body_keys _ (adjFix_mem hT) (adjFix_mem hD)).2⟩

/-- A concrete raw table: out of order, with a duplicate `(Ticker, Date)`
key and no `Adj_Close` column. -/
def dfSample : Table :=
  Table.mk ["Ticker", "Date", "Close"]
    [[Cell.str "TSLA", Cell.str "2020-01-03", Cell.str "2"],
     [Cell.str "SPY", Cell.str "2020-01-02", Cell.str "1"],
     [Cell.str "SPY", Cell.str "2020-01-02", Cell.str "9"],
     [Cell.str "SPY", Cell.str "2020-01-01", Cell.str "3"]]

/-- The cleaned form of `dfSample`. -/
def outSample : Table :=
  Table.mk REQUIRED_COLUMNS
    [[Cell.date "2020-01-01", Cell.na, Cell.na, Cell.na, Cell.num "3",
      Cell.num "3", Cell.na, Cell.str "SPY"],
     [Cell.date "2020-01-02", Cell.na, Cell.na, Cell.na, Cell.num "1",
      Cell.num "1", Cell.na, Cell.str "SPY"],
     [Cell.date "2020-01-03", Cell.na, Cell.na, Cell.na, Cell.num "2",
      Cell.num "2", Cell.na, Cell.str "TSLA"]]

/-- Witness for C1 at a concrete input. -/
theorem C1_clean_output_schema_witness :
    clean_prices dfSample = Except.ok outSample ∧
      (outSample.header = REQUIRED_COLUMNS ∧
        (outSample.rows.map (rowKey REQUIRED_COLUMNS)).Nodup ∧
        List.Sorted (rowLe REQUIRED_COLUMNS) outSample.rows) :=
  ⟨by decide, @C1_clean_output_schema dfSample outSample (by decide)⟩

/-- C2: `clean_prices` is idempotent: applied to its own output it returns
that output unchanged (for a rectangular input table, as every real DataFrame
is). -/
theorem C2_clean_prices_idempotent {df out : Table} (hWF : df.WF)
    (hok : clean_prices df = Except.ok out) :
    clean_prices out = Except.ok out := by
  obtain ⟨hT, hD, rfl⟩ := clean_prices_ok_elim hok
  have hcells := clean_body_cells (normalizeHeader df) (normalizeHeader_WF hWF)
    (adjFix_mem hD)
  have hkeys := clean_body_keys _ (adjFix_mem hT) (adjFix_mem hD)
  exact clean_prices_fix (clean_body_header _) hcells.1 hcells.2.1 hcells.2.2
    hkeys.1 hkeys.2

/-- Witness for C2 at a concrete input. -/
theorem C2_clean_prices_idempotent_witness :
    dfSample.WF ∧ clean_prices dfSample = Except.ok outSample ∧
      clean_prices outSample = Except.ok outSample :=
  ⟨by decide, by decide,
    @C2_clean_prices_idempotent dfSample outSample (by decide) (by decide)⟩

/-- C3: a table lacking `Ticker` (or lacking `Date`) after normalisation makes
`clean_prices` fail with the schema error naming the missing column, and no
output table is returned. -/
theorem C3_missing_column_error (df : Table) :
    ("Ticker" ∉ (normalizeHeader df).header →
      clean_prices df = Except.error "Expected Ticker column is missing.") ∧
      ("Ticker" ∈ (normalizeHeader df).header →
        "Date" ∉ (normalizeHeader df).header →
        clean_prices df = Except.error "Expected Date column is missing.") ∧
      (("Ticker" ∉ (normalizeHeader df).header ∨
          "Date" ∉ (normalizeHeader df).header) →
        ∀ out, clean_prices df ≠ Except.ok out) := by
  refine ⟨?_, ?_, ?_⟩
  · intro h1
    unfold clean_prices
    rw [if_pos h1]
  · intro h1 h2
    unfold clean_prices
    rw [if_neg (by simpa using h1), if_pos h2]
  · intro hmiss out hok
    obtain ⟨hT, hD, _⟩ := clean_prices_ok_elim hok
    rcases hmiss with hm | hm
    · exact hm hT
    · exact hm hD

/-- Witness for C3 at concrete inputs. -/
theorem C3_missing_column_error_witness :
    clean_prices (Table.mk ["Date"] []) =
        Except.error "Expected Ticker column is missing." ∧
      clean_prices (Table.mk ["Ticker"] []) =
        Except.error "Expected Date column is missing." :=
  ⟨(C3_missing_column_error (Table.mk ["Date"] [])).1 (by decide),
    (C3_missing_column_error (Table.mk ["Ticker"] [])).2.1 (by decide) (by decide)⟩

/-- C4: when the normalised input has a `Close` column but no `Adj_Close`
column, every row of the `clean_prices` output has `Adj_Close` equal to that
row's (coerced) `Close` value. -/
theorem C4_adj_close_fallback {df out : Table} (hWF : df.WF)
    (hok : clean_prices df = Except.ok out)
    (hA : "Adj_Close" ∉ (normalizeHeader df).header)
    (hC : "Close" ∈ (normalizeHeader df).header) :
    ∀ r ∈ out.rows,
      getCell REQUIRED_COLUMNS r "Adj_Close" = getCell REQUIRED_COLUMNS r "Close" := by
  obtain ⟨hT, hD, rfl⟩ := clean_prices_ok_elim hok
  have hWF1 : (normalizeHeader df).WF := normalizeHeader_WF hWF
  have hadj : adjFix (normalizeHeader df) =
      appendCol (normalizeHeader df) "Adj_Close"
        (fun r => getCell (normalizeHeader df).header r "Close") := by
    unfold adjFix
    rw [if_pos ⟨hA, hC⟩]
  have happ : (appendCol (normalizeHeader df) "Adj_Close"
      (fun r => getCell (normalizeHeader df).header r "Close")).header =
      (normalizeHeader df).header ++ ["Adj_Close"] := rfl
  have hA2 : "Adj_Close" ∈ (adjFix (normalizeHeader df)).header := by
    rw [hadj, happ]
    exact List.mem_append_right _ (List.mem_singleton_self _)
  have hC2 : "Close" ∈ (adjFix (normalizeHeader df)).header := adjFix_mem hC
  have hD2 : "Date" ∈ (adjFix (normalizeHeader df)).header := adjFix_mem hD
  have hinv2 : ∀ r ∈ (adjFix (normalizeHeader df)).rows,
      getCell (adjFix (normalizeHeader df)).header r "Adj_Close" =
        getCell (adjFix (normalizeHeader df)).header r "Close" := by
    rw [hadj]
    intro r hr
    rcases List.mem_map.mp hr with ⟨r0, hr0, rfl⟩
    rw [happ, getCell_append_self hA (hWF1 r0 hr0) _,
      getCell_append_mem hC (hWF1 r0 hr0) _]
  have hinv3 : ∀ r ∈ (mapCol (adjFix (normalizeHeader df)) "Date" to_datetime).rows,
      getCell (adjFix (normalizeHeader df)).header r "Adj_Close" =
        getCell (adjFix (normalizeHeader df)).header r "Close" := by
    intro r hr
    rcases List.mem_map.mp hr with ⟨r2, hr2, rfl⟩
    rw [getCell_setcell_other hD2 (by decide) r2 _,
      getCell_setcell_other hD2 (by decide) r2 _]
    exact hinv2 r2 hr2
  have hinv4 : ∀ r ∈ (dropna_date
      (mapCol (adjFix (normalizeHeader df)) "Date" to_datetime)).rows,
      getCell (adjFix (normalizeHeader df)).header r "Adj_Close" =
        getCell (adjFix (normalizeHeader df)).header r "Close" :=
    fun r hr => hinv3 r (List.mem_of_mem_filter hr)
  have hh4 : (dropna_date
      (mapCol (adjFix (normalizeHeader df)) "Date" to_datetime)).header =
      (adjFix (normalizeHeader df)).header := rfl
  have hinv5 : ∀ r ∈ (coerceFold NUMERIC_COLUMNS (dropna_date
      (mapCol (adjFix (normalizeHeader df)) "Date" to_datetime))).rows,
      getCell (adjFix (normalizeHeader df)).header r "Adj_Close" =
        getCell (adjFix (normalizeHeader df)).header r "Close" := by
    intro r hr
    obtain ⟨r4, hr4, _, hread⟩ := coerceFold_rows_char NUMERIC_COLUMNS (by decide) _ r hr
    have ha := hread "Adj_Close"
    have hc := hread "Close"
    rw [hh4] at ha hc
    rw [if_pos ⟨by decide, hA2⟩] at ha
    rw [if_pos ⟨by decide, hC2⟩] at hc
    rw [ha, hc, hinv4 r4 hr4]
  have hinv7 : ∀ r ∈ (sort_values (drop_duplicates (coerceFold NUMERIC_COLUMNS
      (dropna_date (mapCol (adjFix (normalizeHeader df)) "Date" to_datetime))))).rows,
      getCell (adjFix (normalizeHeader df)).header r "Adj_Close" =
        getCell (adjFix (normalizeHeader df)).header r "Close" :=
    fun r hr => hinv5 r (mem_dedup_rows (mem_sort_rows hr))
  obtain ⟨added, g, hh8, hrows8, _, hmem8, _⟩ :=
    fillFold_spec REQUIRED_COLUMNS (sort_values (drop_duplicates (coerceFold
      NUMERIC_COLUMNS (dropna_date
        (mapCol (adjFix (normalizeHeader df)) "Date" to_datetime)))))
  have hsd : ∀ w : Table, (sort_values (drop_duplicates w)).header = w.header :=
    fun w => rfl
  have hh7u : (sort_values (drop_duplicates (coerceFold NUMERIC_COLUMNS
      (dropna_date (mapCol (adjFix (normalizeHeader df)) "Date"
        to_datetime))))).header = (adjFix (normalizeHeader df)).header :=
    (hsd _).trans (midstage_header (normalizeHeader df))
  rw [hh7u] at hh8 hmem8
  intro rout hrout
  have hout := project_rows (fillFold REQUIRED_COLUMNS (sort_values (drop_duplicates
    (coerceFold NUMERIC_COLUMNS (dropna_date
      (mapCol (adjFix (normalizeHeader df)) "Date" to_datetime))))))
    REQUIRED_COLUMNS
  rw [show (clean_body (normalizeHeader df)).rows =
      (project (fillFold REQUIRED_COLUMNS (sort_values (drop_duplicates
        (coerceFold NUMERIC_COLUMNS (dropna_date
          (mapCol (adjFix (normalizeHeader df)) "Date" to_datetime))))))
        REQUIRED_COLUMNS).rows from rfl, hout, hrows8] at hrout
  rcases List.mem_map.mp hrout with ⟨r8, hr8, rfl⟩
  rcases List.mem_map.mp hr8 with ⟨r7, hr7, rfl⟩
  rw [getCell_project_read (by decide), getCell_project_read (by decide), hh8,
    hmem8 "Adj_Close" r7 hA2, hmem8 "Close" r7 hC2]
  exact hinv7 r7 hr7

/-- Witness for C4 at a concrete input. -/
theorem C4_adj_close_fallback_witness :
    dfSample.WF ∧ clean_prices dfSample = Except.ok outSample ∧
      "Adj_Close" ∉ (normalizeHeader dfSample).header ∧
      "Close" ∈ (normalizeHeader dfSample).header ∧
      ∀ r ∈ outSample.rows,
        getCell REQUIRED_COLUMNS r "Adj_Close" = getCell REQUIRED_COLUMNS r "Close" :=
  ⟨by decide, by decide, by decide, by decide,
    @C4_adj_close_fallback dfSample outSample (by decide) (by decide)
      (by decide) (by decide)⟩

/-! ### Claims C6-C8 and C10: the batch downloader -/

/-- The frame contributed by a fully successful ticker, `none` otherwise. -/
def tableOpt (env : Env) (t : String) : Option Table :=
  match download_stock_data env t with
  | Except.ok df =>
    match env.save t with
    | Except.ok _ => some df
    | Except.error _ => none
  | Except.error _ => none

/-- The saved path contributed by a fully successful ticker, `none` otherwise. -/
def pathOpt (env : Env) (t : String) : Option String :=
  match download_stock_data env t with
  | Except.ok _ =>
    match env.save t with
    | Except.ok p => some p
    | Except.error _ => none
  | Except.error _ => none

/-- The failure entry contributed by a failing ticker, `none` otherwise. -/
def failOpt (env : Env) (t : String) : Option String :=
  match download_stock_data env t with
  | Except.error e => some (t ++ ": " ++ e)
  | Except.ok _ =>
    match env.save t with
    | Except.error e => some (t ++ ": " ++ e)
    | Except.ok _ => none

theorem download_many_eq (env : Env) : ∀ ts : List String,
    download_many env ts =
      (ts.filterMap (tableOpt env), ts.filterMap (failOpt env),
        ts.filterMap (pathOpt env))
  | [] => rfl
  | t :: ts => by
    unfold download_many
    rw [download_many_eq env ts]
    rcases hd : download_stock_data env t with e | df
    · simp [List.filterMap_cons, tableOpt, failOpt, pathOpt, hd]
    · rcases hs : env.save t with e | p
      · simp [List.filterMap_cons, tableOpt, failOpt, pathOpt, hd, hs]
      · simp [List.filterMap_cons, tableOpt, failOpt, pathOpt, hd, hs]

/-- C6: `download_many` processes tickers in the given order; a fetch or save
failure records the entry `"{ticker}: {message}"` and the batch continues, so
every fully successful ticker's frame and saved path still appear, in order.
All three result collections are exactly the in-order projections of the
per-ticker outcomes. -/
theorem C6_download_many_partial_failure (env : Env) (ts : List String) :
    download_many env ts =
      (ts.filterMap (tableOpt env), ts.filterMap (failOpt env),
        ts.filterMap (pathOpt env)) :=
  download_many_eq env ts

theorem not_succeeds_of_fetch_err {env : Env} {t e : String}
    (hd : download_stock_data env t = Except.error e) : ¬ succeedsFully env t := by
  intro h
  obtain ⟨tb, htb⟩ := h.1
  rw [hd] at htb
  exact Except.noConfusion htb

theorem not_succeeds_of_save_err {env : Env} {t e : String}
    (hs : env.save t = Except.error e) : ¬ succeedsFully env t := by
  intro h
  obtain ⟨pp, hpp⟩ := h.2
  rw [hs] at hpp
  exact Except.noConfusion hpp

/-- Per-ticker success/failure characterisation of the three collections. -/
theorem download_many_filter_char (env : Env) : ∀ ts : List String,
    (download_many env ts).1 =
        (ts.filter (fun t => decide (succeedsFully env t))).map (tableOf env) ∧
      (download_many env ts).2.2 =
        (ts.filter (fun t => decide (succeedsFully env t))).map (pathOf env) ∧
      (download_many env ts).2.1 =
        (ts.filter (fun t => !decide (succeedsFully env t))).map (failEntryOf env)
  | [] => ⟨rfl, rfl, rfl⟩
  | t :: ts => by
    obtain ⟨h1, h2, h3⟩ := download_many_filter_char env ts
    unfold download_many
    rcases hd : download_stock_data env t with e | df
    · have hns : ¬ succeedsFully env t := not_succeeds_of_fetch_err hd
      refine ⟨?_, ?_, ?_⟩ <;>
        simp [List.filter_cons, hns, h1, h2, h3, failEntryOf, hd]
    · rcases hs : env.save t with e | p
      · have hns : ¬ succeedsFully env t := not_succeeds_of_save_err hs
        refine ⟨?_, ?_, ?_⟩ <;>
          simp [List.filter_cons, hns, h1, h2, h3, failEntryOf, hd, hs]
      · have hsu : succeedsFully env t := ⟨⟨df, hd⟩, ⟨p, hs⟩⟩
        refine ⟨?_, ?_, ?_⟩ <;>
          simp [List.filter_cons, hsu, h1, h2, h3, tableOf, pathOf, hd, hs]

/-- Environment refuting the literal reading of C7: `AAA` succeeds fully,
`BBB` gets an empty provider response. -/
def envC7 : Env :=
  Env.mk
    (fun t => if t = "AAA"
      then some (PTable.mk [Cell.date "2020-01-02"] ["Open"] [[Cell.num "1"]])
      else none)
    (fun t => Except.ok ("raw/" ++ t ++ ".csv"))

/-- C7 counterexample: it is not true that the failure list only contains
entries for tickers that succeeded fully — the failure entry of `BBB` is an
entry for a ticker that failed. -/
theorem C7_failures_are_not_successes :
    ¬ ∀ e ∈ (download_many envC7 ["AAA", "BBB"]).2.1,
        ∃ t, succeedsFully envC7 t ∧ e = failEntryOf envC7 t := by
  intro hall
  obtain ⟨t, hsucc, he⟩ :=
    hall "BBB: No data returned for ticker: BBB" (by decide)
  by_cases ht : t = "AAA"
  · subst ht
    rw [show failEntryOf envC7 "AAA" = "" from by decide] at he
    exact (by decide : ("BBB: No data returned for ticker: BBB" : String) ≠ "") he
  · have hf : envC7.fetch t = none := by
      unfold envC7
      simp [ht]
    have hd : download_stock_data envC7 t =
        Except.error ("No data returned for ticker: " ++ t) := by
      unfold download_stock_data
      rw [hf]
    exact not_succeeds_of_fetch_err hd hsucc

/-- C7 (amended): the tables and saved-paths lists only contain entries for
tickers that succeeded fully, in the order encountered; the failure list
contains exactly the entries of the tickers that failed, in the order
encountered. -/
theorem C7_collections_by_success (env : Env) (ts : List String) :
    (download_many env ts).1 =
        (ts.filter (fun t => decide (succeedsFully env t))).map (tableOf env) ∧
      (download_many env ts).2.2 =
        (ts.filter (fun t => decide (succeedsFully env t))).map (pathOf env) ∧
      (download_many env ts).2.1 =
        (ts.filter (fun t => !decide (succeedsFully env t))).map (failEntryOf env) :=
  download_many_filter_char env ts

/-- C10: the returned tables and saved paths have the same length and
correspond index-by-index to the same fully-successful tickers; a ticker
whose download succeeds but whose save fails contributes to the failure list
and to neither success list. -/
theorem C10_per_ticker_atomicity (env : Env) (ts : List String) :
    (download_many env ts).1.length = (download_many env ts).2.2.length ∧
      (download_many env ts).1.zip (download_many env ts).2.2 =
        (ts.filter (fun t => decide (succeedsFully env t))).map
          (fun t => (tableOf env t, pathOf env t)) ∧
      ∀ t ∈ ts, (∃ d, download_stock_data env t = Except.ok d) →
        (∀ q, env.save t ≠ Except.ok q) →
        (∀ q, (tableOpt env t ≠ some q)) ∧ (∀ q, pathOpt env t ≠ some q) ∧
          failEntryOf env t ∈ (download_many env ts).2.1 := by
  obtain ⟨h1, h2, h3⟩ := download_many_filter_char env ts
  refine ⟨?_, ?_, ?_⟩
  · rw [h1, h2]
    simp
  · rw [h1, h2, List.zip_map']
  · intro t ht hdl hsave
    have hns : ¬ succeedsFully env t := by
      intro hsu
      obtain ⟨q, hq⟩ := hsu.2
      exact hsave q hq
    obtain ⟨d, hd⟩ := hdl
    rcases hs : env.save t with e | q
    · refine ⟨?_, ?_, ?_⟩
      · intro q2
        unfold tableOpt
        rw [hd, hs]
        exact fun hcon => Option.noConfusion hcon
      · intro q2
        unfold pathOpt
        rw [hd, hs]
        exact fun hcon => Option.noConfusion hcon
      · rw [h3]
        refine List.mem_map_of_mem _ ?_
        rw [List.mem_filter]
        exact ⟨ht, by simp [hns]⟩
    · exact absurd hs.symm (fun e2 => hsave q e2.symm)

/-- Environment with one fully successful ticker and one whose snapshot save
fails after a successful download. -/
def envC10 : Env :=
  Env.mk
    (fun _ => some (PTable.mk [Cell.date "2020-01-02"] ["Open"] [[Cell.num "1"]]))
    (fun t => if t = "GOOD" then Except.ok "raw/GOOD.csv"
      else Except.error "disk full")

/-- Witness for C10 at a concrete input. -/
theorem C10_per_ticker_atomicity_witness :
    ((download_many envC10 ["GOOD", "BAD"]).1.length =
        (download_many envC10 ["GOOD", "BAD"]).2.2.length) ∧
      ((∀ q, tableOpt envC10 "BAD" ≠ some q) ∧ (∀ q, pathOpt envC10 "BAD" ≠ some q) ∧
        failEntryOf envC10 "BAD" ∈ (download_many envC10 ["GOOD", "BAD"]).2.1) :=
  ⟨(C10_per_ticker_atomicity envC10 ["GOOD", "BAD"]).1,
    (C10_per_ticker_atomicity envC10 ["GOOD", "BAD"]).2.2 "BAD" (by decide)
      ⟨Table.mk ["Date", "Open", "Ticker"]
        [[Cell.date "2020-01-02", Cell.num "1", Cell.str "BAD"]], by decide⟩
      (fun q hq => by
        rw [show envC10.save "BAD" = Except.error "disk full" from by decide] at hq
        exact Except.noConfusion hq)⟩

/-- C8: `download_stock_data` fails with the no-data error when the provider
returns an absent or empty result; on a non-empty result it returns the frame
with an explicit `Date` column and a `Ticker` column equal to the input
ticker in every row (for a rectangular provider frame). -/
theorem C8_download_stock_data_shape (env : Env) (ticker : String) :
    ((env.fetch ticker = none ∨ ∃ p, env.fetch ticker = some p ∧ p.empty) →
      download_stock_data env ticker =
        Except.error ("No data returned for ticker: " ++ ticker)) ∧
      ∀ p, env.fetch ticker = some p → ¬ p.empty → p.WF →
        download_stock_data env ticker =
            Except.ok (set_ticker_col (reset_index p) ticker) ∧
          "Date" ∈ (set_ticker_col (reset_index p) ticker).header ∧
          "Ticker" ∈ (set_ticker_col (reset_index p) ticker).header ∧
          ∀ r ∈ (set_ticker_col (reset_index p) ticker).rows,
            getCell (set_ticker_col (reset_index p) ticker).header r "Ticker" =
              Cell.str ticker := by
  constructor
  · rintro (hn | ⟨p, hp, hemp⟩)
    · unfold download_stock_data
      rw [hn]
    · unfold download_stock_data
      rw [hp]
      simp [hemp]
  · intro p hp hemp hpWF
    have hWFr : ∀ r ∈ (reset_index p).rows, r.length = (reset_index p).header.length := by
      intro r hr
      unfold reset_index at hr ⊢
      rcases List.mem_map.mp hr with ⟨dr, hdr, rfl⟩
      obtain ⟨hd, hrw⟩ := List.of_mem_zip hdr
      simp [hpWF.1 dr.2 hrw]
    refine ⟨?_, ?_, ?_, ?_⟩
    · unfold download_stock_data
      rw [hp]
      simp [hemp]
    · unfold set_ticker_col
      by_cases hmem : "Ticker" ∈ (reset_index p).header
      · simp only [hmem, if_pos]
        exact List.mem_cons_self _ _
      · simp only [hmem, if_neg, not_false_iff]
        exact List.mem_append_left _ (List.mem_cons_self _ _)
    · unfold set_ticker_col
      by_cases hmem : "Ticker" ∈ (reset_index p).header
      · simp only [hmem, if_pos]
        exact hmem
      · simp only [hmem, if_neg, not_false_iff]
        exact List.mem_append_right _ (List.mem_singleton_self _)
    · unfold set_ticker_col
      by_cases hmem : "Ticker" ∈ (reset_index p).header
      · simp only [hmem, if_pos]
        intro r hr
        rcases List.mem_map.mp hr with ⟨r0, hr0, rfl⟩
        exact getD_set_same r0 _ _
          (by rw [hWFr r0 hr0]; exact colIdx_lt_length hmem)
      · simp only [hmem, if_neg, not_false_iff]
        intro r hr
        rcases List.mem_map.mp hr with ⟨r0, hr0, rfl⟩
        exact getCell_append_self hmem (hWFr r0 hr0) _

/-- Provider frame used by the C8 witness. -/
def pSample : PTable := PTable.mk [Cell.date "2020-01-02"] ["Open"] [[Cell.num "1"]]

/-- Environment used by the C8 witness: one absent result, one empty result,
one normal result. -/
def envC8 : Env :=
  Env.mk
    (fun t => if t = "NODATA" then none
      else if t = "EMPTY" then some (PTable.mk [] ["Open"] []) else some pSample)
    (fun _ => Except.ok "raw/x.csv")

/-- Witness for C8 at concrete inputs. -/
theorem C8_download_stock_data_shape_witness :
    (download_stock_data envC8 "NODATA" =
        Except.error "No data returned for ticker: NODATA") ∧
      (download_stock_data envC8 "EMPTY" =
        Except.error "No data returned for ticker: EMPTY") ∧
      (download_stock_data envC8 "TSLA" =
          Except.ok (set_ticker_col (reset_index pSample) "TSLA") ∧
        "Date" ∈ (set_ticker_col (reset_index pSample) "TSLA").header ∧
        "Ticker" ∈ (set_ticker_col (reset_index pSample) "TSLA").header ∧
        ∀ r ∈ (set_ticker_col (reset_index pSample) "TSLA").rows,
          getCell (set_ticker_col (reset_index pSample) "TSLA").header r "Ticker" =
            Cell.str "TSLA") :=
  ⟨(C8_download_stock_data_shape envC8 "NODATA").1 (Or.inl (by decide)),
    (C8_download_stock_data_shape envC8 "EMPTY").1
      (Or.inr ⟨PTable.mk [] ["Open"] [], by decide, by decide⟩),
    (C8_download_stock_data_shape envC8 "TSLA").2 pSample (by decide) (by decide)
      (by decide)⟩

/-! ### Claim C5: the snapshot locator -/

theorem strLe_refl (a : String) : strLe a a := by
  unfold strLe
  simp

theorem strLe_total (a b : String) : strLe a b ∨ strLe b a := by
  unfold strLe
  rcases natListLtB_trichotomy (strKey a) (strKey b) with h | h | h
  · left
    simp [h]
  · left
    simp [strKey_inj h]
  · right
    simp [h]

theorem strLe_trans {a b c : String} (h1 : strLe a b) (h2 : strLe b c) :
    strLe a c := by
  unfold strLe at h1 h2 ⊢
  simp only [Bool.or_eq_true, beq_iff_eq] at h1 h2 ⊢
  rcases h1 with h1 | rfl
  · rcases h2 with h2 | rfl
    · exact Or.inl (natListLtB_trans _ _ _ h1 h2)
    · exact Or.inl h1
  · exact h2

theorem strLe_antisymm {a b : String} (h1 : strLe a b) (h2 : strLe b a) :
    a = b := by
  unfold strLe at h1 h2
  simp only [Bool.or_eq_true, beq_iff_eq] at h1 h2
  rcases h1 with h1 | rfl
  · rcases h2 with h2 | rfl
    · have := natListLtB_asymm _ _ h1
      rw [this] at h2
      cases h2
    · rfl
  · rfl

instance : IsTotal String strLe := ⟨strLe_total⟩

instance : IsTrans String strLe := ⟨fun _ _ _ => strLe_trans⟩

instance : IsAntisymm String strLe := ⟨fun _ _ => strLe_antisymm⟩

theorem sorted_rel_getLast : ∀ {l : List String}, List.Sorted strLe l →
    (hne : l ≠ []) → ∀ x ∈ l, strLe x (l.getLast hne)
  | [], _, hne, _, _ => absurd rfl hne
  | [a], _, _, x, hx => by
    rw [List.mem_singleton.mp hx]
    exact strLe_refl _
  | a :: b :: t, hs, _, x, hx => by
    rw [List.getLast_cons (List.cons_ne_nil b t)]
    rcases List.mem_cons.mp hx with rfl | hx2
    · exact strLe_trans ((List.sorted_cons.mp hs).1 b (List.mem_cons_self b t))
        (sorted_rel_getLast (List.sorted_cons.mp hs).2 (List.cons_ne_nil b t) b
          (List.mem_cons_self b t))
    · exact sorted_rel_getLast (List.sorted_cons.mp hs).2 (List.cons_ne_nil b t) x hx2

theorem natListLtB_append_left : ∀ (p x y : List Nat),
    natListLtB x y = true → natListLtB (p ++ x) (p ++ y) = true
  | [], _, _, h => h
  | a :: p, x, y, h => by
    rcases hy : p ++ y with _ | ⟨b, t⟩
    · have : y = [] := by
        rcases y with _ | _
        · rfl
        · rw [List.append_eq_nil] at hy
          exact hy.2
      subst this
      cases x with
      | nil => simp [natListLtB] at h
      | cons c cs => simp [natListLtB] at h
    · show natListLtB (a :: (p ++ x)) (a :: (p ++ y)) = true
      unfold natListLtB
      rw [if_neg (Nat.lt_irrefl a), if_neg (Nat.lt_irrefl a)]
      exact natListLtB_append_left p x y h

theorem natListLtB_append_same : ∀ (x y c : List Nat), x.length = y.length →
    natListLtB x y = true → natListLtB (x ++ c) (y ++ c) = true
  | [], [], _, _, h => by simp [natListLtB] at h
  | [], _ :: _, _, hl, _ => by simp at hl
  | _ :: _, [], _, hl, _ => by simp at hl
  | a :: x, b :: y, c, hl, h => by
    unfold natListLtB at h
    show (if a < b then true else if b < a then false
      else natListLtB (x ++ c) (y ++ c)) = true
    by_cases hab : a < b
    · rw [if_pos hab]
    · rw [if_neg hab] at h ⊢
      by_cases hba : b < a
      · rw [if_pos hba] at h
        cases h
      · rw [if_neg hba] at h ⊢
        exact natListLtB_append_same x y c (by simpa using hl) h

theorem strKey_append (a b : String) : strKey (a ++ b) = strKey a ++ strKey b := by
  unfold strKey
  have : (a ++ b).toList = a.toList ++ b.toList := rfl
  rw [this, List.map_append]

/-- The snapshot file name for a ticker, version and timestamp. -/
def snapName (ticker version ts : String) : String :=
  ticker ++ "_raw_" ++ version ++ "_" ++ ts ++ ".csv"

theorem snapName_matches (ticker version ts : String) (hts : ts.length = 15) :
    matchesSnapshotGlob ticker version (snapName ticker version ts) := by
  unfold matchesSnapshotGlob snapName
  refine ⟨?_, ?_, ?_⟩
  · have h1 : (ticker ++ "_raw_" ++ version ++ "_" ++ ts ++ ".csv").toList =
        (ticker ++ "_raw_" ++ version ++ "_").toList ++ (ts ++ ".csv").toList := by
      rw [show ticker ++ "_raw_" ++ version ++ "_" ++ ts ++ ".csv" =
        (ticker ++ "_raw_" ++ version ++ "_") ++ (ts ++ ".csv") from by
          rw [String.append_assoc, String.append_assoc]]
      rfl
    rw [h1]
    exact List.prefix_append _ _
  · have h1 : (ticker ++ "_raw_" ++ version ++ "_" ++ ts ++ ".csv").toList =
        (ticker ++ "_raw_" ++ version ++ "_" ++ ts).toList ++ ".csv".toList := rfl
    rw [h1]
    exact List.suffix_append _ _
  · rw [show (ticker ++ "_raw_" ++ version ++ "_" ++ ts ++ ".csv") =
      (ticker ++ "_raw_" ++ version ++ "_") ++ (ts ++ ".csv") from by
        rw [String.append_assoc, String.append_assoc]]
    have h4 : (".csv" : String).length = 4 := rfl
    have h1 := String.length_append (ticker ++ "_raw_" ++ version ++ "_") (ts ++ ".csv")
    have h2 := String.length_append ts ".csv"
    omega

theorem snapName_lt {ticker version t1 t2 : String} (hl : t1.length = t2.length)
    (h : natListLtB (strKey t1) (strKey t2) = true) :
    natListLtB (strKey (snapName ticker version t1))
      (strKey (snapName ticker version t2)) = true := by
  have hlen : (strKey t1).length = (strKey t2).length := by
    unfold strKey
    simp only [List.length_map]
    rw [show t1.toList.length = t1.length from rfl,
      show t2.toList.length = t2.length from rfl, hl]
  unfold snapName
  rw [show ticker ++ "_raw_" ++ version ++ "_" ++ t1 ++ ".csv" =
      (ticker ++ "_raw_" ++ version ++ "_") ++ (t1 ++ ".csv") from by
        rw [String.append_assoc, String.append_assoc]]
  rw [show ticker ++ "_raw_" ++ version ++ "_" ++ t2 ++ ".csv" =
      (ticker ++ "_raw_" ++ version ++ "_") ++ (t2 ++ ".csv") from by
        rw [String.append_assoc, String.append_assoc]]
  simp only [strKey_append]
  exact natListLtB_append_left _ _ _ (natListLtB_append_same _ _ _ hlen h)

theorem snapName_le {ticker version t1 t2 : String} (hl : t1.length = t2.length)
    (h : natListLtB (strKey t1) (strKey t2) = true) :
    strLe (snapName ticker version t1) (snapName ticker version t2) := by
  unfold strLe
  simp [snapName_lt hl h]

theorem latest_snapshot_perm (ticker version : String) {d1 d2 : List String}
    (hperm : d1.Perm d2) :
    latest_snapshot_for_ticker d1 ticker version =
      latest_snapshot_for_ticker d2 ticker version := by
  have hL : (d1.filter (fun n =>
      decide (matchesSnapshotGlob ticker version n))).insertionSort strLe =
      (d2.filter (fun n =>
        decide (matchesSnapshotGlob ticker version n))).insertionSort strLe := by
    refine List.eq_of_perm_of_sorted ?_ (List.sorted_insertionSort strLe _)
      (List.sorted_insertionSort strLe _)
    exact (List.perm_insertionSort strLe _).trans
      ((hperm.filter _).trans (List.perm_insertionSort strLe _).symm)
  unfold latest_snapshot_for_ticker
  rw [hL]

theorem latest_snapshot_char (raw_dir : List String) (ticker version : String)
    (f : String) :
    latest_snapshot_for_ticker raw_dir ticker version = Except.ok f ↔
      ((raw_dir.filter (fun n => decide (matchesSnapshotGlob ticker version n))).insertionSort
        strLe).getLast? = some f := by
  constructor
  · intro hok
    unfold latest_snapshot_for_ticker at hok
    rcases h : ((raw_dir.filter (fun n =>
        decide (matchesSnapshotGlob ticker version n))).insertionSort strLe).getLast? with
        _ | m
    · rw [h] at hok
      simp at hok
    · rw [h] at hok
      simp only [Except.ok.injEq] at hok
      rw [hok]
  · intro h
    unfold latest_snapshot_for_ticker
    rw [h]

/-- C5: `latest_snapshot_for_ticker` returns the lexicographically greatest
file name matching the glob (in the Python string order `strLe`), succeeds
whenever at least one file matches, is independent of the order in which the
filesystem lists the directory, and in particular, on exactly three snapshots
with timestamps `T1 < T2 < T3`, returns the file stamped `T3`. -/
theorem C5_latest_snapshot_max (raw_dir : List String) (ticker version : String) :
    (∀ f, latest_snapshot_for_ticker raw_dir ticker version = Except.ok f →
      f ∈ raw_dir ∧ matchesSnapshotGlob ticker version f ∧
        ∀ g ∈ raw_dir, matchesSnapshotGlob ticker version g → strLe g f) ∧
      ((∃ g ∈ raw_dir, matchesSnapshotGlob ticker version g) →
        ∃ f, latest_snapshot_for_ticker raw_dir ticker version = Except.ok f) ∧
      (∀ dir2, raw_dir.Perm dir2 →
        latest_snapshot_for_ticker raw_dir ticker version =
          latest_snapshot_for_ticker dir2 ticker version) ∧
      (∀ T1 T2 T3, T1.length = 15 → T2.length = 15 → T3.length = 15 →
        natListLtB (strKey T1) (strKey T2) = true →
        natListLtB (strKey T2) (strKey T3) = true →
        raw_dir.Perm [snapName ticker version T1, snapName ticker version T2,
          snapName ticker version T3] →
        latest_snapshot_for_ticker raw_dir ticker version =
          Except.ok (snapName ticker version T3)) := by
  refine ⟨?_, ?_, ?_, ?_⟩
  · intro f hok
    have h := (latest_snapshot_char raw_dir ticker version f).mp hok
    have hne : (raw_dir.filter (fun n =>
        decide (matchesSnapshotGlob ticker version n))).insertionSort strLe ≠ [] := by
      intro hnil
      rw [hnil] at h
      cases h
    rw [List.getLast?_eq_getLast _ hne] at h
    have hf : ((raw_dir.filter (fun n =>
        decide (matchesSnapshotGlob ticker version n))).insertionSort strLe).getLast hne
        = f := by
      injection h
    have hfm : f ∈ (raw_dir.filter (fun n =>
        decide (matchesSnapshotGlob ticker version n))).insertionSort strLe := by
      rw [← hf]
      exact List.getLast_mem hne
    rw [List.mem_insertionSort] at hfm
    refine ⟨List.mem_of_mem_filter hfm, by simpa using List.of_mem_filter hfm, ?_⟩
    intro g hg hmg
    have hgm : g ∈ (raw_dir.filter (fun n =>
        decide (matchesSnapshotGlob ticker version n))).insertionSort strLe := by
      rw [List.mem_insertionSort]
      exact List.mem_filter.mpr ⟨hg, by simpa using hmg⟩
    rw [← hf]
    exact sorted_rel_getLast (List.sorted_insertionSort strLe _) hne g hgm
  · rintro ⟨g, hg, hmg⟩
    have hgm : g ∈ (raw_dir.filter (fun n =>
        decide (matchesSnapshotGlob ticker version n))).insertionSort strLe := by
      rw [List.mem_insertionSort]
      exact List.mem_filter.mpr ⟨hg, by simpa using hmg⟩
    have hne := List.ne_nil_of_mem hgm
    exact ⟨_, (latest_snapshot_char raw_dir ticker version _).mpr
      (List.getLast?_eq_getLast _ hne)⟩
  · intro dir2 hperm
    exact latest_snapshot_perm ticker version hperm
  · intro T1 T2 T3 hl1 hl2 hl3 h12 h23 hperm
    rw [latest_snapshot_perm ticker version hperm]
    apply (latest_snapshot_char _ _ _ _).mpr
    have hfil : ([snapName ticker version T1, snapName ticker version T2,
        snapName ticker version T3].filter
          (fun n => decide (matchesSnapshotGlob ticker version n))) =
        [snapName ticker version T1, snapName ticker version T2,
          snapName ticker version T3] := by
      rw [List.filter_eq_self]
      intro a ha
      rcases List.mem_cons.mp ha with rfl | ha2
      · exact decide_eq_true (snapName_matches _ _ _ hl1)
      · rcases List.mem_cons.mp ha2 with rfl | ha3
        · exact decide_eq_true (snapName_matches _ _ _ hl2)
        · rw [List.mem_singleton.mp ha3]
          exact decide_eq_true (snapName_matches _ _ _ hl3)
    rw [hfil]
    have hsorted : List.Sorted strLe [snapName ticker version T1,
        snapName ticker version T2, snapName ticker version T3] := by
      refine List.sorted_cons.mpr ⟨?_, List.sorted_cons.mpr
        ⟨?_, List.sorted_singleton _⟩⟩
      · intro b hb
        rcases List.mem_cons.mp hb with rfl | hb2
        · exact snapName_le (by rw [hl1, hl2]) h12
        · rw [List.mem_singleton.mp hb2]
          exact snapName_le (by rw [hl1, hl3]) (natListLtB_trans _ _ _ h12 h23)
      · intro b hb
        rw [List.mem_singleton.mp hb]
        exact snapName_le (by rw [hl2, hl3]) h23
    rw [hsorted.insertionSort_eq]
    rfl

/-- A raw directory listing out of chronological order, with an unrelated
file. -/
def dirC5 : List String :=
  ["SPY_raw_v1_20240103_101010.csv", "notes.txt",
   "SPY_raw_v1_20240101_101010.csv", "SPY_raw_v1_20240102_101010.csv"]

/-- The same three snapshots, no unrelated file, shuffled. -/
def dirC5b : List String :=
  ["SPY_raw_v1_20240102_101010.csv", "SPY_raw_v1_20240103_101010.csv",
   "SPY_raw_v1_20240101_101010.csv"]

/-- Witness for C5 at concrete inputs. -/
theorem C5_latest_snapshot_max_witness :
    (latest_snapshot_for_ticker dirC5 "SPY" "v1" =
        Except.ok "SPY_raw_v1_20240103_101010.csv") ∧
      ("SPY_raw_v1_20240103_101010.csv" ∈ dirC5 ∧
        matchesSnapshotGlob "SPY" "v1" "SPY_raw_v1_20240103_101010.csv" ∧
        ∀ g ∈ dirC5, matchesSnapshotGlob "SPY" "v1" g →
          strLe g "SPY_raw_v1_20240103_101010.csv") ∧
      latest_snapshot_for_ticker dirC5b "SPY" "v1" =
        Except.ok (snapName "SPY" "v1" "20240103_101010") :=
  ⟨by decide,
    (C5_latest_snapshot_max dirC5 "SPY" "v1").1 "SPY_raw_v1_20240103_101010.csv"
      (by decide),
    (C5_latest_snapshot_max dirC5b "SPY" "v1").2.2.2 "20240101_101010"
      "20240102_101010" "20240103_101010" (by decide) (by decide) (by decide)
      (by decide) (by decide) (by decide)⟩

/-! ### Claim C9: CSV persistence and the save/load round trip

The filesystem is a map from paths to file contents; `to_csv`/`read_csv`
model `DataFrame.to_csv`/`pd.read_csv` for the comma/newline framing that the
clean dataset actually uses (cells are dates, decimal literals or plain
ticker text; pandas would quote a field containing a separator, but the round
trip claim is stated for separator-free cell text). -/

def splitSep (sep : Char) : List Char → List (List Char)
  | [] => [[]]
  | c :: cs =>
    match splitSep sep cs with
    | [] => [[]]
    | g :: gs => if c = sep then [] :: g :: gs else (c :: g) :: gs

def joinSep (sep : Char) : List (List Char) → List Char
  | [] => []
  | [x] => x
  | x :: y :: gs => x ++ sep :: joinSep sep (y :: gs)

theorem splitSep_ne_nil (sep : Char) : ∀ cs, splitSep sep cs ≠ []
  | [] => by simp [splitSep]
  | c :: cs => by
    unfold splitSep
    rcases h : splitSep sep cs with _ | ⟨g, gs⟩
    · simp
    · by_cases hc : c = sep <;> simp [hc]

theorem splitSep_no_sep (sep : Char) : ∀ cs, sep ∉ cs → splitSep sep cs = [cs]
  | [], _ => rfl
  | c :: cs, hmem => by
    have hc : c ≠ sep := fun e => hmem (e ▸ List.mem_cons_self c cs)
    have hin : sep ∉ cs := fun hm => hmem (List.mem_cons_of_mem c hm)
    unfold splitSep
    rw [splitSep_no_sep sep cs hin]
    simp [hc]

theorem splitSep_sep_append (sep : Char) :
    ∀ x t, sep ∉ x → splitSep sep (x ++ sep :: t) = x :: splitSep sep t
  | [], t, _ => by
    show splitSep sep (sep :: t) = [] :: splitSep sep t
    simp only [splitSep]
    rcases h : splitSep sep t with _ | ⟨g, gs⟩
    · exact absurd h (splitSep_ne_nil sep t)
    · simp
  | c :: x, t, hmem => by
    have hc : c ≠ sep := fun e => hmem (e ▸ List.mem_cons_self c x)
    have hin : sep ∉ x := fun hm => hmem (List.mem_cons_of_mem c hm)
    show splitSep sep (c :: (x ++ sep :: t)) = (c :: x) :: splitSep sep t
    simp only [splitSep]
    rw [splitSep_sep_append sep x t hin]
    simp [hc]

theorem split_join (sep : Char) : ∀ xs : List (List Char), xs ≠ [] →
    (∀ x ∈ xs, sep ∉ x) → splitSep sep (joinSep sep xs) = xs
  | [], hne, _ => absurd rfl hne
  | [x], _, hall => by
    unfold joinSep
    exact splitSep_no_sep sep x (hall x (List.mem_singleton_self x))
  | x :: y :: gs, _, hall => by
    unfold joinSep
    rw [splitSep_sep_append sep x (joinSep sep (y :: gs))
      (hall x (List.mem_cons_self _ _))]
    rw [split_join sep (y :: gs) (List.cons_ne_nil y gs)
      (fun z hz => hall z (List.mem_cons_of_mem x hz))]

theorem notMem_joinSep (sep c : Char) : ∀ xs : List (List Char),
    (∀ x ∈ xs, c ∉ x) → c ≠ sep → c ∉ joinSep sep xs
  | [], _, _ => List.not_mem_nil c
  | [x], hall, _ => by
    unfold joinSep
    exact hall x (List.mem_singleton_self x)
  | x :: y :: gs, hall, hcs => by
    unfold joinSep
    rw [List.mem_append]
    rintro (h1 | h2)
    · exact hall x (List.mem_cons_self _ _) h1
    · rcases List.mem_cons.mp h2 with rfl | h3
      · exact hcs rfl
      · exact notMem_joinSep sep c (y :: gs)
          (fun z hz => hall z (List.mem_cons_of_mem x hz)) hcs h3

example : splitSep ',' (joinSep ',' [['a'], [], ['b', 'c']]) =
    [['a'], [], ['b', 'c']] := by decide

/-- Type inference of `pd.read_csv` on one field: empty reads as missing,
decimal literals as numbers, anything else as text. -/
def infer_cell (s : String) : Cell :=
  if s = "" then Cell.na
  else if isNumericStr s then Cell.num s
  else Cell.str s

/-- Serialised text of one cell, reusing `cellText` (pandas prints a
datetime64 date as its ISO text, a float as its decimal literal, and a
missing value as the empty field). -/
def encodeCell (c : Cell) : List Char := (cellText c).toList

/-- Model of `DataFrame.to_csv(index=False)`: a header line then one line per
row, fields joined by commas. -/
def to_csv (t : Table) : String :=
  String.mk (joinSep '
'
    ((joinSep ',' (t.header.map String.toList)) ::
      t.rows.map (fun r => joinSep ',' (r.map encodeCell))))

/-- Model of `parse_dates=["Date"]`: parse the `Date` column when present. -/
def parse_dates_date (t : Table) : Table :=
  if "Date" ∈ t.header then mapCol t "Date" to_datetime else t

/-- Model of `pd.read_csv(path, parse_dates=["Date"])` on file content: split
lines, split fields, infer each field, then parse the `Date` column. -/
def read_csv (content : String) : Table :=
  parse_dates_date
    (Table.mk
      ((splitSep ',' (splitSep '
' content.toList).headI).map
        (fun cs => String.mk cs))
      ((splitSep '
' content.toList).tail.map
        (fun line => (splitSep ',' line).map (fun cs => infer_cell (String.mk cs)))))

/-- A filesystem: a map from paths to file contents. -/
def FS : Type := String → Option String

/-- Writing one file. -/
def fsWrite (fs : FS) (path content : String) : FS :=
  fun q => if q = path then some content else fs q

/-- The archival path `clean_prices_{version}_{timestamp}.csv`. -/
def archivedPath (processed_dir version timestamp : String) : String :=
  processed_dir ++ "/clean_prices_" ++ version ++ "_" ++ timestamp ++ ".csv"

/-- The stable path `clean_prices_{version}_latest.csv`. -/
def latestPath (processed_dir version : String) : String :=
  processed_dir ++ "/clean_prices_" ++ version ++ "_latest.csv"

/-- Model of `save_clean_prices` (data_processing.py lines 116-135): one
timestamp (supplied by the environment, `pd.Timestamp.utcnow` formatted as
`YYYYMMDD_HHMMSS`, always 15 characters), two writes of the same serialised
dataset; directory creation is a no-op on the flat path map.  Returns the new
filesystem and the pair `(archived_path, latest_path)`. -/
def save_clean_prices (fs : FS) (clean_df : Table)
    (processed_dir version timestamp : String) : FS × String × String :=
  (fsWrite (fsWrite fs (archivedPath processed_dir version timestamp)
      (to_csv clean_df))
    (latestPath processed_dir version) (to_csv clean_df),
   archivedPath processed_dir version timestamp,
   latestPath processed_dir version)

/-- Model of `load_clean_prices_latest` (data_processing.py lines 138-141):
read the stable latest path; `none` models the `FileNotFoundError`. -/
def load_clean_prices_latest (fs : FS) (processed_dir version : String) :
    Option Table :=
  (fs (latestPath processed_dir version)).map read_csv

/-- Ticker text that survives the textual round trip unchanged: non-empty,
not shaped like a number, and free of the CSV separators. -/
def safeTextB (s : String) : Bool :=
  !(s == "") && !(isNumericStr s) && !(s.toList.contains ',') &&
    !(s.toList.contains '
')

def cellDateOKB : Cell → Bool
  | Cell.date s => isIsoDate s
  | _ => false

def cellNumOKB : Cell → Bool
  | Cell.num s => isNumericStr s
  | Cell.na => true
  | _ => false

def cellTextOKB : Cell → Bool
  | Cell.str s => safeTextB s
  | Cell.na => true
  | _ => false

/-- A clean dataset as produced by the pipeline and serialisable without
quoting: the fixed schema, rectangular, ISO dates, decimal numerics (or
missing), and plain ticker text (or missing). -/
def RoundTrippable (t : Table) : Prop :=
  t.header = REQUIRED_COLUMNS ∧ t.WF ∧
    ∀ r ∈ t.rows, cellDateOKB (getCell REQUIRED_COLUMNS r "Date") = true ∧
      (∀ c ∈ NUMERIC_COLUMNS, cellNumOKB (getCell REQUIRED_COLUMNS r c) = true) ∧
      cellTextOKB (getCell REQUIRED_COLUMNS r "Ticker") = true

instance (t : Table) : Decidable (RoundTrippable t) := by
  unfold RoundTrippable
  infer_instance

example : RoundTrippable outSample := by decide

theorem isNumericCore_chars {cs : List Char} (h : isNumericCore cs = true) :
    ∀ x ∈ cs, x.isDigit = true ∨ x = '.' := by
  unfold isNumericCore at h
  simp only [Bool.and_eq_true, List.all_eq_true] at h
  intro x hx
  have := h.1.2 x hx
  simp only [Bool.or_eq_true, beq_iff_eq] at this
  exact this

theorem isNumericStr_ne_empty {s : String} (h : isNumericStr s = true) : s ≠ "" := by
  intro he
  subst he
  simp [isNumericStr] at h

theorem isNumericStr_chars {s : String} (h : isNumericStr s = true) :
    ∀ x ∈ s.toList, x.isDigit = true ∨ x = '.' ∨ x = '-' ∨ x = '+' := by
  unfold isNumericStr at h
  rcases hl : s.toList with _ | ⟨c, cs⟩
  · intro x hx
    simp at hx
  · rw [hl] at h
    change (if c = '-' ∨ c = '+' then isNumericCore cs
      else isNumericCore (c :: cs)) = true at h
    intro x hx
    by_cases hc : c = '-' ∨ c = '+'
    · rw [if_pos hc] at h
      rcases List.mem_cons.mp hx with rfl | hx2
      · rcases hc with rfl | rfl
        · exact Or.inr (Or.inr (Or.inl rfl))
        · exact Or.inr (Or.inr (Or.inr rfl))
      · rcases isNumericCore_chars h x hx2 with h2 | h2
        · exact Or.inl h2
        · exact Or.inr (Or.inl h2)
    · rw [if_neg hc] at h
      rcases isNumericCore_chars h x hx with h2 | h2
      · exact Or.inl h2
      · exact Or.inr (Or.inl h2)

theorem isNumericStr_tail_chars {s : String} (h : isNumericStr s = true) :
    ∀ x ∈ s.toList.tail, x.isDigit = true ∨ x = '.' := by
  unfold isNumericStr at h
  rcases hl : s.toList with _ | ⟨c, cs⟩
  · intro x hx
    simp at hx
  · rw [hl] at h
    change (if c = '-' ∨ c = '+' then isNumericCore cs
      else isNumericCore (c :: cs)) = true at h
    intro x hx
    simp only [List.tail_cons] at hx
    by_cases hc : c = '-' ∨ c = '+'
    · rw [if_pos hc] at h
      exact isNumericCore_chars h x hx
    · rw [if_neg hc] at h
      exact isNumericCore_chars h x (List.mem_cons_of_mem c hx)

theorem isIsoDate_shape {s : String} (h : isIsoDate s = true) :
    ∃ y1 y2 y3 y4 m1 m2 d1 d2 : Char,
      s.toList = [y1, y2, y3, y4, '-', m1, m2, '-', d1, d2] ∧
        y1.isDigit = true ∧ y2.isDigit = true ∧ y3.isDigit = true ∧
        y4.isDigit = true ∧ m1.isDigit = true ∧ m2.isDigit = true ∧
        d1.isDigit = true ∧ d2.isDigit = true := by
  unfold isIsoDate at h
  rcases hl : s.toList with
      _ | ⟨a, _ | ⟨b, _ | ⟨c, _ | ⟨d, _ | ⟨e, _ | ⟨f, _ | ⟨g, _ | ⟨h2,
        _ | ⟨i, _ | ⟨j, _ | ⟨k, tl⟩⟩⟩⟩⟩⟩⟩⟩⟩⟩⟩ <;> rw [hl] at h
  all_goals try exact absurd h Bool.false_ne_true
  simp only [Bool.and_eq_true, beq_iff_eq] at h
  obtain ⟨⟨⟨⟨⟨⟨⟨⟨⟨ha, hb⟩, hc⟩, hd⟩, he⟩, hf⟩, hg⟩, hh⟩, hi⟩, hj⟩ := h
  subst he
  subst hh
  exact ⟨a, b, c, d, f, g, i, j, rfl, ha, hb, hc, hd, hf, hg, hi, hj⟩

theorem isIsoDate_ne_empty {s : String} (h : isIsoDate s = true) : s ≠ "" := by
  intro he
  subst he
  simp [isIsoDate] at h

theorem isIsoDate_not_numeric {s : String} (hi : isIsoDate s = true) :
    isNumericStr s = false := by
  by_contra hn
  have hn' : isNumericStr s = true := by
    rcases hb : isNumericStr s
    · exact absurd hb hn
    · rfl
  obtain ⟨y1, y2, y3, y4, m1, m2, d1, d2, hl, _⟩ := isIsoDate_shape hi
  have hmem : '-' ∈ s.toList.tail := by
    rw [hl]
    simp
  rcases isNumericStr_tail_chars hn' '-' hmem with h2 | h2
  · exact absurd h2 (by decide)
  · exact absurd h2 (by decide)

theorem isIsoDate_chars {s : String} (h : isIsoDate s = true) :
    ∀ x ∈ s.toList, x.isDigit = true ∨ x = '-' := by
  obtain ⟨y1, y2, y3, y4, m1, m2, d1, d2, hl, h1, h2, h3, h4, h5, h6, h7, h8⟩ :=
    isIsoDate_shape h
  intro x hx
  rw [hl] at hx
  simp only [List.mem_cons, List.not_mem_nil, or_false] at hx
  rcases hx with rfl | rfl | rfl | rfl | rfl | rfl | rfl | rfl | rfl | rfl
  · exact Or.inl h1
  · exact Or.inl h2
  · exact Or.inl h3
  · exact Or.inl h4
  · exact Or.inr rfl
  · exact Or.inl h5
  · exact Or.inl h6
  · exact Or.inr rfl
  · exact Or.inl h7
  · exact Or.inl h8

theorem digit_not_sep {x : Char} (h : x.isDigit = true) : x ≠ ',' ∧ x ≠ '\n' :=
  ⟨fun e => absurd (e ▸ h) (by decide), fun e => absurd (e ▸ h) (by decide)⟩

/-- Cells of a round-trippable table serialise to separator-free text. -/
theorem encodeCell_no_sep {c : Cell}
    (h : cellDateOKB c = true ∨ cellNumOKB c = true ∨ cellTextOKB c = true) :
    ',' ∉ encodeCell c ∧ '\n' ∉ encodeCell c := by
  rcases c with t | t | t | _
  · rcases h with h | h | h
    · cases h
    · cases h
    · unfold cellTextOKB safeTextB at h
      simp only [Bool.and_eq_true, Bool.not_eq_true'] at h
      have h1 : ',' ∉ t.toList := by
        intro hm
        have := h.1.2
        simp at this
        exact this hm
      have h2 : '\n' ∉ t.toList := by
        intro hm
        have := h.2
        simp at this
        exact this hm
      exact ⟨h1, h2⟩
  · rcases h with h | h | h
    · cases h
    · unfold cellNumOKB at h
      constructor <;> intro hmem <;>
        rcases isNumericStr_chars h _ hmem with h2 | h2 | h2 | h2 <;>
          exact absurd h2 (by decide)
    · cases h
  · rcases h with h | h | h
    · unfold cellDateOKB at h
      constructor <;> intro hmem <;>
        rcases isIsoDate_chars h _ hmem with h2 | h2 <;>
          exact absurd h2 (by decide)
    · cases h
    · cases h
  · exact ⟨List.not_mem_nil _, List.not_mem_nil _⟩

theorem infer_encode_num {c : Cell} (h : cellNumOKB c = true) :
    infer_cell (cellText c) = c := by
  rcases c with t | t | t | _
  · cases h
  · unfold cellNumOKB at h
    unfold infer_cell cellText
    rw [if_neg (isNumericStr_ne_empty h), if_pos h]
  · cases h
  · rfl

theorem infer_encode_text {c : Cell} (h : cellTextOKB c = true) :
    infer_cell (cellText c) = c := by
  rcases c with t | t | t | _
  · unfold cellTextOKB safeTextB at h
    simp only [Bool.and_eq_true, Bool.not_eq_true', beq_eq_false_iff_ne] at h
    unfold infer_cell cellText
    rw [if_neg h.1.1.1, if_neg (by rw [h.1.1.2]; exact Bool.false_ne_true)]
  · cases h
  · cases h
  · rfl

theorem infer_encode_date {c : Cell} (h : cellDateOKB c = true) :
    ∃ s, c = Cell.date s ∧ isIsoDate s = true ∧
      infer_cell (cellText c) = Cell.str s := by
  rcases c with t | t | t | _
  · cases h
  · cases h
  · unfold cellDateOKB at h
    refine ⟨t, rfl, h, ?_⟩
    unfold infer_cell cellText
    rw [if_neg (isIsoDate_ne_empty h),
      if_neg (by rw [isIsoDate_not_numeric h]; exact Bool.false_ne_true)]
  · cases h

example : normalizeName " Adj Close " = "Adj_Close" := by decide

example : REQUIRED_COLUMNS.map normalizeName = REQUIRED_COLUMNS := by decide

example :
    clean_prices (Table.mk ["Date", "Close"] []) =
      Except.error "Expected Ticker column is missing." := by decide

example :
    clean_prices
        (Table.mk ["Date", "Ticker", "Close"]
          [[Cell.str "2020-01-02", Cell.str "SPY", Cell.str "3.5"]]) =
      Except.ok (Table.mk REQUIRED_COLUMNS
        [[Cell.date "2020-01-02", Cell.na, Cell.na, Cell.na, Cell.num "3.5",
          Cell.num "3.5", Cell.na, Cell.str "SPY"]]) := by decide

theorem row_cells_ok {r : List Cell} (hlen : r.length = 8)
    (hd : cellDateOKB (getCell REQUIRED_COLUMNS r "Date") = true)
    (hn : ∀ c ∈ NUMERIC_COLUMNS, cellNumOKB (getCell REQUIRED_COLUMNS r c) = true)
    (ht : cellTextOKB (getCell REQUIRED_COLUMNS r "Ticker") = true) :
    ∃ a0 a1 a2 a3 a4 a5 a6 a7,
      r = [a0, a1, a2, a3, a4, a5, a6, a7] ∧ cellDateOKB a0 = true ∧
        cellNumOKB a1 = true ∧ cellNumOKB a2 = true ∧ cellNumOKB a3 = true ∧
        cellNumOKB a4 = true ∧ cellNumOKB a5 = true ∧ cellNumOKB a6 = true ∧
        cellTextOKB a7 = true := by
  obtain _ | ⟨a0, r⟩ := r
  · simp at hlen
  obtain _ | ⟨a1, r⟩ := r
  · simp at hlen
  obtain _ | ⟨a2, r⟩ := r
  · simp at hlen
  obtain _ | ⟨a3, r⟩ := r
  · simp at hlen
  obtain _ | ⟨a4, r⟩ := r
  · simp at hlen
  obtain _ | ⟨a5, r⟩ := r
  · simp at hlen
  obtain _ | ⟨a6, r⟩ := r
  · simp at hlen
  obtain _ | ⟨a7, r⟩ := r
  · simp at hlen
  obtain _ | ⟨a8, r⟩ := r
  · exact ⟨a0, a1, a2, a3, a4, a5, a6, a7, rfl, hd, hn "Open" (by decide),
      hn "High" (by decide), hn "Low" (by decide), hn "Close" (by decide),
      hn "Adj_Close" (by decide), hn "Volume" (by decide), ht⟩
  · exfalso
    simp only [List.length_cons] at hlen
    omega

theorem roundtrip_row {r : List Cell} (hlen : r.length = 8)
    (hd : cellDateOKB (getCell REQUIRED_COLUMNS r "Date") = true)
    (hn : ∀ c ∈ NUMERIC_COLUMNS, cellNumOKB (getCell REQUIRED_COLUMNS r c) = true)
    (ht : cellTextOKB (getCell REQUIRED_COLUMNS r "Ticker") = true) :
    (r.map (fun c => infer_cell (cellText c))).set 0
      (to_datetime ((r.map (fun c => infer_cell (cellText c))).getD 0 Cell.na)) = r := by
  obtain ⟨a0, a1, a2, a3, a4, a5, a6, a7, rfl, h0, h1, h2, h3, h4, h5, h6, h7⟩ :=
    row_cells_ok hlen hd hn ht
  obtain ⟨s, rfl, hiso, hinf⟩ := infer_encode_date h0
  simp only [List.map_cons, List.map_nil, hinf, infer_encode_num h1,
    infer_encode_num h2, infer_encode_num h3, infer_encode_num h4,
    infer_encode_num h5, infer_encode_num h6, infer_encode_text h7]
  show List.set _ 0 (to_datetime (Cell.str s)) = _
  have hdt : to_datetime (Cell.str s) = Cell.date s := by
    show (if isIsoDate s = true then Cell.date s else Cell.na) = Cell.date s
    rw [if_pos hiso]
  rw [hdt]
  rfl

/-- Reading back the serialised clean dataset recovers it exactly: the
`parse_dates` step re-parses the ISO date text and `infer_cell` recovers each
numeric or ticker cell from its literal. -/
theorem read_to_csv_roundtrip {t : Table} (h : RoundTrippable t) :
    read_csv (to_csv t) = t := by
  obtain ⟨hhd, hwf, hcells⟩ := h
  have hlen8 : ∀ r ∈ t.rows, r.length = 8 := by
    intro r hr
    rw [hwf r hr, hhd]
    rfl
  have hrowok : ∀ r ∈ t.rows, ∀ c ∈ r,
      cellDateOKB c = true ∨ cellNumOKB c = true ∨ cellTextOKB c = true := by
    intro r hr c hc
    obtain ⟨hd, hn, ht⟩ := hcells r hr
    obtain ⟨a0, a1, a2, a3, a4, a5, a6, a7, heq, h0, h1, h2, h3, h4, h5, h6, h7⟩ :=
      row_cells_ok (hlen8 r hr) hd hn ht
    subst heq
    simp only [List.mem_cons, List.not_mem_nil, or_false] at hc
    rcases hc with rfl | rfl | rfl | rfl | rfl | rfl | rfl | rfl
    · exact Or.inl h0
    · exact Or.inr (Or.inl h1)
    · exact Or.inr (Or.inl h2)
    · exact Or.inr (Or.inl h3)
    · exact Or.inr (Or.inl h4)
    · exact Or.inr (Or.inl h5)
    · exact Or.inr (Or.inl h6)
    · exact Or.inr (Or.inr h7)
  have hlines : splitSep '\n' (to_csv t).toList =
      (joinSep ',' (t.header.map String.toList)) ::
        t.rows.map (fun r => joinSep ',' (r.map encodeCell)) := by
    have hdefeq : (to_csv t).toList =
        joinSep '\n' ((joinSep ',' (t.header.map String.toList)) ::
          t.rows.map (fun r => joinSep ',' (r.map encodeCell))) := rfl
    rw [hdefeq]
    apply split_join
    · exact List.cons_ne_nil _ _
    · intro x hx
      rcases List.mem_cons.mp hx with rfl | hx2
      · rw [hhd]
        decide
      · rcases List.mem_map.mp hx2 with ⟨r, hr, rfl⟩
        apply notMem_joinSep
        · intro y hy
          rcases List.mem_map.mp hy with ⟨c, hc, rfl⟩
          exact (encodeCell_no_sep (hrowok r hr c hc)).2
        · decide
  have hH : (splitSep ',' (joinSep ','
        (REQUIRED_COLUMNS.map String.toList))).map
      (fun cs => String.mk cs) = REQUIRED_COLUMNS := by decide
  have hrows : (t.rows.map (fun r => joinSep ',' (r.map encodeCell))).map
      (fun line => (splitSep ',' line).map (fun cs => infer_cell (String.mk cs))) =
      t.rows.map (fun r => r.map (fun c => infer_cell (cellText c))) := by
    rw [List.map_map]
    apply List.map_congr_left
    intro r hr
    show (splitSep ',' (joinSep ',' (r.map encodeCell))).map
        (fun cs => infer_cell (String.mk cs)) =
      r.map (fun c => infer_cell (cellText c))
    rw [split_join ',' (r.map encodeCell)
      (by
        intro he
        have h8 := hlen8 r hr
        rw [List.map_eq_nil_iff.mp he] at h8
        exact absurd h8 (by decide))
      (by
        intro x hx
        rcases List.mem_map.mp hx with ⟨c, hc, rfl⟩
        exact (encodeCell_no_sep (hrowok r hr c hc)).1)]
    rw [List.map_map]
    rfl
  have hpd : ∀ rs : List (List Cell),
      parse_dates_date (Table.mk REQUIRED_COLUMNS rs) =
        Table.mk REQUIRED_COLUMNS
          (rs.map (fun r => r.set 0 (to_datetime (r.getD 0 Cell.na)))) := by
    intro rs
    unfold parse_dates_date
    show (if "Date" ∈ REQUIRED_COLUMNS then
        mapCol (Table.mk REQUIRED_COLUMNS rs) "Date" to_datetime
      else Table.mk REQUIRED_COLUMNS rs) = _
    rw [if_pos (show "Date" ∈ REQUIRED_COLUMNS from by decide)]
    rfl
  unfold read_csv
  rw [hlines]
  simp only [List.headI, List.tail_cons]
  rw [hhd, hH, hrows, hpd, List.map_map]
  have hfinal : ∀ r ∈ t.rows,
      ((fun r => List.set r 0 (to_datetime (r.getD 0 Cell.na))) ∘
        (fun r => r.map (fun c => infer_cell (cellText c)))) r = r := by
    intro r hr
    obtain ⟨hd, hn, ht⟩ := hcells r hr
    exact roundtrip_row (hlen8 r hr) hd hn ht
  rw [List.map_congr_left hfinal]
  have hid : t.rows.map (fun r => r) = t.rows := List.map_id t.rows
  rw [hid, ← hhd]

/-- The empty filesystem. -/
def fsEmpty : FS := fun _ => none

/-- C9: `save_clean_prices` writes the same serialised dataset (bit-identical
`to_csv` text) to two distinct paths, the timestamped archival copy and the
fixed latest copy, and an immediately following `load_clean_prices_latest`
for the same processed directory and version returns a table equal to the
dataset saved: its dates and numbers survive the textual round trip. -/
theorem C9_save_load_roundtrip (fs : FS) (clean_df : Table)
    (processed_dir version timestamp : String)
    (hshape : RoundTrippable clean_df) (hts : timestamp.length = 15) :
    archivedPath processed_dir version timestamp ≠
        latestPath processed_dir version ∧
      (save_clean_prices fs clean_df processed_dir version timestamp).1
          (archivedPath processed_dir version timestamp) =
        some (to_csv clean_df) ∧
      (save_clean_prices fs clean_df processed_dir version timestamp).1
          (latestPath processed_dir version) =
        some (to_csv clean_df) ∧
      load_clean_prices_latest
          (save_clean_prices fs clean_df processed_dir version timestamp).1
          processed_dir version =
        some clean_df := by
  have hne : archivedPath processed_dir version timestamp ≠
      latestPath processed_dir version := by
    intro he
    have hl := congrArg String.length he
    have e1 : ("/clean_prices_" : String).length = 14 := rfl
    have e2 : (".csv" : String).length = 4 := rfl
    have e3 : ("_" : String).length = 1 := rfl
    have e4 : ("_latest.csv" : String).length = 11 := rfl
    simp only [archivedPath, latestPath, String.length_append, e1, e2, e3, e4,
      hts] at hl
    omega
  refine ⟨hne, ?_, ?_, ?_⟩
  · show fsWrite (fsWrite fs (archivedPath processed_dir version timestamp)
        (to_csv clean_df)) (latestPath processed_dir version) (to_csv clean_df)
      (archivedPath processed_dir version timestamp) = some (to_csv clean_df)
    unfold fsWrite
    rw [if_neg hne, if_pos rfl]
  · show fsWrite (fsWrite fs (archivedPath processed_dir version timestamp)
        (to_csv clean_df)) (latestPath processed_dir version) (to_csv clean_df)
      (latestPath processed_dir version) = some (to_csv clean_df)
    unfold fsWrite
    rw [if_pos rfl]
  · show (fsWrite (fsWrite fs (archivedPath processed_dir version timestamp)
        (to_csv clean_df)) (latestPath processed_dir version) (to_csv clean_df)
      (latestPath processed_dir version)).map read_csv = some clean_df
    unfold fsWrite
    rw [if_pos rfl]
    exact congrArg some (read_to_csv_roundtrip hshape)

/-- Concrete check of C9: saving the sample clean table on the empty
filesystem and loading the latest copy back returns the very same table. -/
theorem C9_save_load_roundtrip_witness :
    RoundTrippable outSample ∧ ("20240101_101010" : String).length = 15 ∧
      load_clean_prices_latest
          (save_clean_prices fsEmpty outSample "data/processed/v1" "v1"
            "20240101_101010").1 "data/processed/v1" "v1" =
        some outSample :=
  ⟨by decide, by decide,
    (C9_save_load_roundtrip fsEmpty outSample "data/processed/v1" "v1"
        "20240101_101010" (by decide) (by decide)).2.2.2⟩
